import Mathlib

/-!
minikube: the update-notification gate (`pkg/minikube/notify`) and the
boilerplate checker's `fileExtension` (`hack/boilerplate`).

A shallow embedding of the two Go source files.  Stateful code is written as
explicit state passing over a `World` (file system, clock position, trace of
observable effects); a Go runtime panic is the `none` of an `Option`.
-/

set_option autoImplicit false

namespace Minikube

/-- A Go string is a byte sequence; one `Char` stands for one byte. -/
abbrev Str := List Char

/-! ## Go standard library: `strings` and `path` -/

namespace strings

/-- Go `strings.Split(s, sep)` for a one-byte separator: the pieces between
the occurrences of `sep`; the result is never empty. -/
def Split (s : Str) (sep : Char) : List Str :=
  match s with
  | [] => [[]]
  | c :: cs =>
    if c = sep then [] :: Split cs sep
    else
      match Split cs sep with
      | [] => [[c]]
      | x :: xs => (c :: x) :: xs

/-- Go `strings.HasPrefix`. -/
def HasPrefix (s pfx : Str) : Bool :=
  pfx.isPrefixOf s

/-- Go `strings.TrimPrefix`: `s` without the leading `pfx`, or `s` itself. -/
def TrimPrefix (s pfx : Str) : Str :=
  if HasPrefix s pfx then s.drop pfx.length else s

end strings

namespace path

/-- Go `path.Split`: splits right after the final slash into directory and
file; without a slash the directory is empty. -/
def Split (p : Str) : Str × Str :=
  let r := p.reverse
  ((r.dropWhile (fun c => c != '/')).reverse, (r.takeWhile (fun c => c != '/')).reverse)

/-- Go `path.Base`: the last element of the path, trailing slashes removed;
"." for the empty path and "/" for a path of slashes only. -/
def Base (p : Str) : Str :=
  if p = [] then ['.']
  else
    let stripped := (p.reverse.dropWhile (fun c => c == '/')).reverse
    let last := (stripped.reverse.takeWhile (fun c => c != '/')).reverse
    if last = [] then ['/'] else last

end path

/-! ## Go standard library: `time`

The calendar, `Format` and `Parse` follow the source of the standard
library's `time` package, as of the Go releases this program was written for
(Go 1.12 and 1.13), for the layout the program uses (`time.RFC1123`); `Sub`
follows its documented contract. -/

namespace time

/-- Go `time.Time` as this package observes it: an instant in UTC.  `sec`
counts the seconds since January 1, year 1 00:00:00 UTC (the library's
internal epoch) and `nsec` the nanoseconds within that second.  The only
writer of the state file passes `time.Now().UTC()`. -/
structure Time where
  sec : Int
  nsec : Int
deriving DecidableEq, Repr

/-- The zero value `time.Time{}`: January 1, year 1, 00:00:00 UTC. -/
def Time.zero : Time := ⟨0, 0⟩

/-- The instant truncated to whole seconds. -/
def Time.truncSecond (t : Time) : Time := ⟨t.sec, 0⟩

def secondsPerDay : Nat := 86400
def absoluteZeroYear : Int := -292277022399
def absoluteToInternal : Int := -9223371966579724800
def internalToUnix : Int := -62135596800

/-- Source `daysBefore`: the days of a non-leap year before each month. -/
def daysBefore : List Nat := [0, 31, 59, 90, 120, 151, 181, 212, 243, 273, 304, 334, 365]

/-- Source `isLeap`. -/
def isLeap (year : Int) : Bool :=
  year % 4 == 0 && (year % 100 != 0 || year % 400 == 0)

/-- Source `t.abs()` for a UTC time: seconds since the absolute epoch, a
uint64. -/
def Time.abs (t : Time) : Nat :=
  ((t.sec - absoluteToInternal) % 18446744073709551616).toNat

/-- Source `absDate` (year and day of the year): the 400-, 100-, 4- and
1-year cycles are cut off in turn; `n - n / 4` is the source's
`n -= n >> 2`. -/
def absYearDay (abs : Nat) : Int × Nat :=
  let d := abs / secondsPerDay
  let n := d / 146097
  let y := 400 * n
  let d := d - 146097 * n
  let n := d / 36524
  let n := n - n / 4
  let y := y + 100 * n
  let d := d - 36524 * n
  let n := d / 1461
  let y := y + 4 * n
  let d := d - 1461 * n
  let n := d / 365
  let n := n - n / 4
  let y := y + n
  let d := d - 365 * n
  ((y : Int) + absoluteZeroYear, d)

/-- Source `absDate` (month and day of the month from the day of the year):
the leap day is taken out, the month is estimated as `day / 31` and adjusted
by at most one. -/
def monthDay (leap : Bool) (yday : Nat) : Nat × Nat :=
  if leap && yday == 31 + 29 - 1 then (2, 29)
  else
    let day := if leap && yday > 31 + 29 - 1 then yday - 1 else yday
    let month := day / 31
    let endDay := daysBefore.getD (month + 1) 0
    if day >= endDay then (month + 2, day - endDay + 1)
    else (month + 1, day - daysBefore.getD month 0 + 1)

/-- The calendar fields of an absolute time, as `Time.Format` reads them. -/
structure Civil where
  year : Int
  month : Nat
  day : Nat
  weekday : Nat
  hour : Nat
  min : Nat
  sec : Nat
deriving DecidableEq, Repr

/-- Source `absDate`, `absWeekday` and `absClock` together. -/
def civil (abs : Nat) : Civil :=
  let yd := absYearDay abs
  let md := monthDay (isLeap yd.1) yd.2
  let s := abs % secondsPerDay
  { year := yd.1, month := md.1, day := md.2,
    weekday := ((abs + 1 * secondsPerDay) % 18446744073709551616 % 604800) / secondsPerDay,
    hour := s / 3600, min := s % 3600 / 60, sec := s % 60 }

/-- Source `daysIn`. -/
def daysIn (month : Nat) (year : Int) : Nat :=
  if month == 2 && isLeap year then 29
  else daysBefore.getD month 0 - daysBefore.getD (month - 1) 0

/-- Source `daysSinceEpoch`: the days from the absolute epoch to the start
of `year`. -/
def daysSinceEpoch (year : Int) : Nat :=
  let y := (year - absoluteZeroYear).toNat
  let n := y / 400
  let y := y - 400 * n
  let d := 146097 * n
  let n := y / 100
  let y := y - 100 * n
  let d := d + 36524 * n
  let n := y / 4
  let y := y - 4 * n
  let d := d + 1461 * n
  d + 365 * y

/-- Two's-complement wrap of an integer into the int64 range. -/
def wrapInt64 (x : Int) : Int :=
  (x + 9223372036854775808) % 18446744073709551616 - 9223372036854775808

/-- Source `norm`: carries `lo` into `hi` so that `0 <= lo < base`. -/
def norm (hi lo base : Int) : Int × Int :=
  let p : Int × Int :=
    if lo < 0 then
      let n := Int.tdiv (-lo - 1) base + 1
      (hi - n, lo + n * base)
    else (hi, lo)
  if p.2 >= base then
    let n := Int.tdiv p.2 base
    (p.1 + n, p.2 - n * base)
  else p

/-- Source `time.Date(year, month, day, hour, min, sec, nsec, time.UTC)`. -/
def Date (year month day hour min sec nsec : Int) : Time :=
  let ym := norm year (month - 1) 12
  let year := ym.1
  let month := ym.2 + 1
  let sn := norm sec nsec 1000000000
  let ms := norm min sn.1 60
  let hm := norm hour ms.1 60
  let dh := norm day hm.1 24
  let d : Int := daysSinceEpoch year
  let d := d + daysBefore.getD (month - 1).toNat 0
  let d := if isLeap year && month >= 3 then d + 1 else d
  let d := d + (dh.1 - 1)
  let abs := d * secondsPerDay + (dh.2 * 3600 + hm.2 * 60 + ms.2)
  ⟨wrapInt64 (abs + absoluteToInternal), sn.2⟩

/-! ### `Time.Format` and `time.Parse` for the layout `time.RFC1123` -/

/-- The pieces `nextStdChunk` cuts a layout into: literal text and the
standard fields that occur in `time.RFC1123`. -/
inductive Chunk where
  | lit (text : Str)
  | stdWeekDay
  | stdZeroDay
  | stdMonth
  | stdLongYear
  | stdHour
  | stdZeroMinute
  | stdZeroSecond
  | stdTZ
deriving DecidableEq, Repr

/-- Go `time.RFC1123 = "Mon, 02 Jan 2006 15:04:05 MST"`, cut into chunks. -/
def RFC1123 : List Chunk :=
  [.stdWeekDay, .lit [',', ' '], .stdZeroDay, .lit [' '], .stdMonth, .lit [' '],
   .stdLongYear, .lit [' '], .stdHour, .lit [':'], .stdZeroMinute, .lit [':'],
   .stdZeroSecond, .lit [' '], .stdTZ]

def shortDayNames : List Str :=
  [['S', 'u', 'n'], ['M', 'o', 'n'], ['T', 'u', 'e'], ['W', 'e', 'd'],
   ['T', 'h', 'u'], ['F', 'r', 'i'], ['S', 'a', 't']]

def shortMonthNames : List Str :=
  [['J', 'a', 'n'], ['F', 'e', 'b'], ['M', 'a', 'r'], ['A', 'p', 'r'],
   ['M', 'a', 'y'], ['J', 'u', 'n'], ['J', 'u', 'l'], ['A', 'u', 'g'],
   ['S', 'e', 'p'], ['O', 'c', 't'], ['N', 'o', 'v'], ['D', 'e', 'c']]

/-- The byte `'0' + d`. -/
def digitChar (d : Nat) : Char := Char.ofNat (48 + d)

/-- The loop of source `appendInt` that assembles the decimal digits of `u`
from the right; the fuel is the length of its 20-byte buffer. -/
def appendDigits : Nat → Nat → Str → Str
  | 0, _, acc => acc
  | fuel + 1, u, acc =>
    if u >= 10 then appendDigits fuel (u / 10) (digitChar (u % 10) :: acc)
    else digitChar u :: acc

/-- Source `appendInt`: the decimal form of `x`, zero-padded to `width`. -/
def appendInt (x : Int) (width : Nat) : Str :=
  let digits := appendDigits 20 x.natAbs []
  (if x < 0 then ['-'] else []) ++ List.replicate (width - digits.length) '0' ++ digits

/-- One chunk of `Time.Format` for a UTC time, whose zone name is "UTC". -/
def formatChunk (c : Civil) : Chunk → Str
  | .lit text => text
  | .stdWeekDay => shortDayNames.getD c.weekday []
  | .stdZeroDay => appendInt c.day 2
  | .stdMonth => shortMonthNames.getD (c.month - 1) []
  | .stdLongYear => appendInt c.year 4
  | .stdHour => appendInt c.hour 2
  | .stdZeroMinute => appendInt c.min 2
  | .stdZeroSecond => appendInt c.sec 2
  | .stdTZ => ['U', 'T', 'C']

/-- Go `t.Format(layout)` for a UTC time. -/
def Time.Format (t : Time) (layout : List Chunk) : Str :=
  (layout.map (formatChunk (civil t.abs))).flatten

def isDigitChar (c : Char) : Bool := '0' ≤ c && c ≤ '9'

def digitVal (c : Char) : Nat := c.toNat - 48

/-- Source `getnum`: a one- or two-digit number; with `fixed` it must have
two digits. -/
def getnum (s : Str) (fixed : Bool) : Option (Nat × Str) :=
  match s with
  | [] => none
  | c0 :: rest =>
    if !isDigitChar c0 then none
    else
      match rest with
      | [] => if fixed then none else some (digitVal c0, rest)
      | c1 :: rest2 =>
        if isDigitChar c1 then some (digitVal c0 * 10 + digitVal c1, rest2)
        else if fixed then none
        else some (digitVal c0, rest)

/-- Source `match`: equality of two byte strings of the same length up to
ASCII letter case. -/
def matchFold : Str → Str → Bool
  | c1 :: s1, c2 :: s2 =>
    (if c1 = c2 then true
     else
       let l1 := c1.toNat ||| 32
       let l2 := c2.toNat ||| 32
       l1 == l2 && 97 ≤ l1 && l1 ≤ 122) && matchFold s1 s2
  | _, _ => true

/-- Source `lookup`: the index of the first table entry that starts `val`
(letter case ignored) and the text after it. -/
def lookup (tab : List Str) (val : Str) : Option (Nat × Str) :=
  match tab with
  | [] => none
  | v :: rest =>
    if val.length >= v.length && matchFold (val.take v.length) v then
      some (0, val.drop v.length)
    else
      match lookup rest val with
      | none => none
      | some (i, r) => some (i + 1, r)

def cutspace (s : Str) : Str := s.dropWhile (fun c => c == ' ')

/-- Source `skip`: removes the literal `pfx` from `value`; a run of spaces in
`pfx` stands for any run of spaces in `value`.  `inRun` says that the
current run of spaces of `pfx` has been cut already. -/
def skipFrom : Str → Str → Bool → Option Str
  | [], value, _ => some value
  | p :: ps, value, inRun =>
    if p = ' ' then
      if inRun then skipFrom ps value true
      else
        match value with
        | [] => skipFrom ps [] true
        | v :: _ => if v != ' ' then none else skipFrom ps (cutspace value) true
    else
      match value with
      | [] => none
      | v :: vs => if v = p then skipFrom ps vs false else none

def skip (value pfx : Str) : Option Str := skipFrom pfx value false

/-- The value of a string of decimal digits, `none` when another byte
occurs (source `atoi` on unsigned text that fits an int). -/
def digitsValue : Str → Nat → Option Nat
  | [], acc => some acc
  | c :: cs, acc => if isDigitChar c then digitsValue cs (acc * 10 + digitVal c) else none

/-- What `Parse` has read so far; the initial values are the source's. -/
structure Fields where
  year : Int := 0
  month : Int := 1
  day : Int := 1
  hour : Int := 0
  min : Int := 0
  sec : Int := 0
  nsec : Int := 0
  /-- Whether `z` is set (under this layout only ever to UTC). -/
  utc : Bool := false
  zoneName : Str := []
deriving DecidableEq, Repr

/-- Zone abbreviations other than UTC are resolved by the library's
`parseTimeZone` and the process's local zone database, which this embedding
takes as given. -/
structure Zones where
  /-- The length of the zone abbreviation at the start of the text, when the
  text looks like one. -/
  parseTimeZone : Str → Option Nat
  /-- The offset, in seconds east of UTC, the local Location gives to an
  abbreviation at a Unix time. -/
  lookupName : Str → Int → Option Int

/-- Source `parseNanoseconds`: the fraction `value[0:nbytes]`, a period
followed by digits, as nanoseconds; `none` when the digits do not fit
(an `atoi` overflow or the range error "fractional second"). -/
def parseNanoseconds (value : Str) (nbytes : Nat) : Option Nat :=
  match value with
  | '.' :: rest =>
    match digitsValue (rest.take (nbytes - 1)) 0 with
    | none => none
    | some ns => if 1000000000 <= ns then none else some (ns * 10 ^ (10 - nbytes))
  | _ => none

/-- One standard chunk of source `Parse`; `none` is a parse error. -/
def parseChunk (zones : Zones) (f : Fields) (value : Str) : Chunk → Option (Fields × Str)
  | .lit text => (skip value text).map (fun v => (f, v))
  | .stdWeekDay => (lookup shortDayNames value).map (fun r => (f, r.2))
  | .stdZeroDay => (getnum value true).map (fun r => ({ f with day := r.1 }, r.2))
  | .stdMonth => (lookup shortMonthNames value).map (fun r => ({ f with month := r.1 + 1 }, r.2))
  | .stdLongYear =>
    match value with
    | c0 :: _ =>
      if value.length < 4 || !isDigitChar c0 then none
      else (digitsValue (value.take 4) 0).map (fun y => ({ f with year := y }, value.drop 4))
    | [] => none
  | .stdHour =>
    match getnum value false with
    | none => none
    | some (h, v) => if 24 <= h then none else some ({ f with hour := h }, v)
  | .stdZeroMinute =>
    match getnum value true with
    | none => none
    | some (m, v) => if 60 <= m then none else some ({ f with min := m }, v)
  | .stdZeroSecond =>
    match getnum value true with
    | none => none
    | some (s, v) =>
      if 60 <= s then none
      else
        match v with
        | '.' :: c :: rest =>
          if isDigitChar c then
            let n := 2 + (rest.takeWhile isDigitChar).length
            match parseNanoseconds v n with
            | none => none
            | some ns => some ({ f with sec := s, nsec := ns }, v.drop n)
          else some ({ f with sec := s }, v)
        | _ => some ({ f with sec := s }, v)
  | .stdTZ =>
    if value.length >= 3 && value.take 3 = ['U', 'T', 'C'] then
      some ({ f with utc := true }, value.drop 3)
    else
      match zones.parseTimeZone value with
      | none => none
      | some n => some ({ f with zoneName := value.take n }, value.drop n)

/-- The loop of source `Parse` over the layout's chunks; text left over at
the end of the layout is an error. -/
def parseChunks (zones : Zones) : List Chunk → Fields → Str → Option Fields
  | [], f, value => if value = [] then some f else none
  | c :: cs, f, value =>
    match parseChunk zones f value c with
    | none => none
    | some (f2, v2) => parseChunks zones cs f2 v2

/-- Go `time.Parse(layout, value)`; `none` is the error result.  After the
loop the day of the month is validated and the time is built with `Date`;
a zone abbreviation the local Location knows shifts it by that offset. -/
def Parse (zones : Zones) (layout : List Chunk) (value : Str) : Option Time :=
  match parseChunks zones layout {} value with
  | none => none
  | some f =>
    if f.day < 1 || f.day > daysIn f.month.toNat f.year then none
    else
      let t := Date f.year f.month f.day f.hour f.min f.sec f.nsec
      if f.utc then some t
      else if f.zoneName != [] then
        match zones.lookupName f.zoneName (t.sec + internalToUnix) with
        | some offset => some ⟨t.sec - offset, t.nsec⟩
        | none => some t
      else some t

/-! ### Durations -/

def minDuration : Int := -9223372036854775808
def maxDuration : Int := 9223372036854775807

/-- Go `t.Sub(u)`, a `Duration` in nanoseconds: "If the result exceeds the
maximum (or minimum) value that can be stored in a Duration, the maximum (or
minimum) duration will be returned." -/
def Time.Sub (t u : Time) : Int :=
  let d := (t.sec - u.sec) * 1000000000 + (t.nsec - u.nsec)
  if d < minDuration then minDuration
  else if d > maxDuration then maxDuration
  else d

/-! ### float64

`Duration.Hours` and the configured wait period are float64 values.  Every
finite float64 is a whole multiple of `2^-1074`, so a finite float64 `x` is
written as the integer `x * 2^1074` and the float64 operations are exact
integer arithmetic followed by IEEE 754 rounding to nearest, ties to even.
Overflow to infinity does not arise for the magnitudes that occur here (below
`2^22` hours) and is not represented. -/

/-- A finite float64 `x`, held as the integer `x * 2^1074`. -/
structure Float64 where
  scaled : Int
deriving DecidableEq, Repr

namespace Float64

def unit : Nat := 2 ^ 1074

instance : LE Float64 := ⟨fun a b => a.scaled ≤ b.scaled⟩

instance (a b : Float64) : Decidable (a ≤ b) := Int.decLe a.scaled b.scaled

/-- The number of binary digits of `n`; the fuel bounds the recursion and
any fuel of at least `n` suffices. -/
def bitLength : Nat → Nat → Nat
  | 0, _ => 0
  | fuel + 1, n => if n = 0 then 0 else bitLength fuel (n / 2) + 1

/-- The float64 nearest the positive rational `a / b` (both in units of
`2^-1074`), ties to the even significand: values of at most 53 bits round to
whole units (the subnormal spacing), larger ones to a multiple of the
spacing that leaves 53 significant bits. -/
def roundNat (a b : Nat) : Nat :=
  let n := a / b
  let spacing := 2 ^ (bitLength n n - 53)
  let q := a / (b * spacing)
  let r := a % (b * spacing)
  if 2 * r > b * spacing || (2 * r == b * spacing && q % 2 == 1) then (q + 1) * spacing
  else q * spacing

/-- Rounding of the rational `a / b`, `b > 0`, by magnitude and sign. -/
def round (a : Int) (b : Nat) : Float64 :=
  if a < 0 then ⟨-(roundNat a.natAbs b : Int)⟩ else ⟨roundNat a.natAbs b⟩

/-- Go `float64(z)` for an integer `z`. -/
def ofInt (z : Int) : Float64 := round (z * unit) 1

/-- float64 addition. -/
def add (x y : Float64) : Float64 := round (x.scaled + y.scaled) 1

/-- float64 division by a non-zero divisor. -/
def div (x y : Float64) : Float64 :=
  round (if y.scaled < 0 then -(x.scaled * unit) else x.scaled * unit) y.scaled.natAbs

end Float64

/-- Go `Duration.Hours`:
`hour := d / Hour; nsec := d % Hour; return float64(hour) + float64(nsec)/(60*60*1e9)`
with Go's truncating integer division. -/
def Duration.Hours (d : Int) : Float64 :=
  let hour := Int.tdiv d 3600000000000
  let nsec := Int.tmod d 3600000000000
  Float64.add (Float64.ofInt hour)
    (Float64.div (Float64.ofInt nsec) (Float64.ofInt (60 * 60 * 1000000000)))

end time

/-! ## Library `github.com/blang/semver` -/

namespace semver

/-- Source `semver.PRVersion`: one dot-separated pre-release identifier. -/
structure PRVersion where
  VersionStr : Str
  VersionNum : Nat
  IsNum : Bool
deriving DecidableEq, Repr

/-- Source `semver.Version`. -/
structure Version where
  Major : Nat
  Minor : Nat
  Patch : Nat
  Pre : List PRVersion
  Build : List Str
deriving DecidableEq, Repr

/-- Source `PRVersion.Compare`: numeric identifiers sort below alphanumeric
ones, numbers by value, text bytewise. -/
def PRVersion.Compare (v o : PRVersion) : Int :=
  if v.IsNum && !o.IsNum then -1
  else if !v.IsNum && o.IsNum then 1
  else if v.IsNum && o.IsNum then
    if v.VersionNum = o.VersionNum then 0
    else if v.VersionNum > o.VersionNum then 1
    else -1
  else
    if v.VersionStr = o.VersionStr then 0
    else if o.VersionStr < v.VersionStr then 1
    else -1

/-- The loop of `Version.Compare` over the two pre-release lists and its
closing length comparison. -/
def comparePre : List PRVersion → List PRVersion → Int
  | [], [] => 0
  | [], _ :: _ => -1
  | _ :: _, [] => 1
  | a :: as, b :: bs =>
    if a.Compare b = 0 then comparePre as bs
    else if a.Compare b = 1 then 1
    else -1

/-- Source `Version.Compare`: -1, 0 or 1 as `v` is below, equal to or above
`o`; build metadata is not compared. -/
def Version.Compare (v o : Version) : Int :=
  if v.Major ≠ o.Major then (if v.Major > o.Major then 1 else -1)
  else if v.Minor ≠ o.Minor then (if v.Minor > o.Minor then 1 else -1)
  else if v.Patch ≠ o.Patch then (if v.Patch > o.Patch then 1 else -1)
  else if v.Pre.length = 0 && o.Pre.length = 0 then 0
  else if v.Pre.length = 0 && o.Pre.length > 0 then 1
  else if v.Pre.length > 0 && o.Pre.length = 0 then -1
  else comparePre v.Pre o.Pre

/-- Source `PRVersion.String`. -/
def PRVersion.String (v : PRVersion) : Str :=
  if v.IsNum then (Nat.repr v.VersionNum).toList else v.VersionStr

/-- Source `Version.String`: `major.minor.patch[-pre][+build]`. -/
def Version.String (v : Version) : Str :=
  (Nat.repr v.Major).toList ++ ['.'] ++ (Nat.repr v.Minor).toList ++ ['.']
    ++ (Nat.repr v.Patch).toList
    ++ (if v.Pre.length > 0 then '-' :: List.intercalate ['.'] (v.Pre.map PRVersion.String) else [])
    ++ (if v.Build.length > 0 then '+' :: List.intercalate ['.'] v.Build else [])

end semver

/-! ## `pkg/minikube/notify/notify.go` -/

namespace notify

open time semver

deriving instance DecidableEq for Except

/-- Source `Release`. -/
structure Release where
  Name : Str
  Checksums : List (Str × Str)
deriving DecidableEq, Repr

/-- Source `Releases`. -/
abbrev Releases := List Release

/-- The outcome of `http.NewRequest` followed by `client.Do`. -/
inductive HttpResult where
  /-- `http.NewRequest` failed; no request was sent. -/
  | requestError (err : Str)
  /-- `client.Do` failed. -/
  | doError (err : Str)
  /-- `client.Do` returned a response with this status code and body. -/
  | response (status : Nat) (body : Str)
deriving DecidableEq, Repr

/-- What the package reads from outside itself: configuration (viper), the
constants and functions of packages that are not among the sources, the wall
clock, the network, and the libraries that decode what comes back. -/
structure Env where
  /-- `viper.GetBool(config.WantUpdateNotification)`. -/
  WantUpdateNotification : Bool
  /-- `viper.GetFloat64(config.ReminderWaitPeriodInHours)`. -/
  ReminderWaitPeriodInHours : Float64
  /-- `localpath.MakeMiniPath("last_update_check")`. -/
  lastUpdateCheckFilePath : Str
  /-- `constants.GithubMinikubeReleasesURL`. -/
  GithubMinikubeReleasesURL : Str
  /-- `version.VersionPrefix`. -/
  VersionPrefix : Str
  /-- `version.GetVersion()`. -/
  GetVersion : Str
  /-- `version.GetSemverVersion()`. -/
  GetSemverVersion : Except Str Version
  /-- `runtime.GOOS`. -/
  GOOS : Str
  /-- The instant the n-th call of `time.Now()` of the run returns. -/
  clock : Nat → Time
  /-- Zone abbreviations as `time.Parse` resolves them. -/
  zones : Zones
  /-- The network: what a GET of the URL yields. -/
  httpGet : Str → HttpResult
  /-- `json.NewDecoder(body).Decode(&releases)`. -/
  jsonDecode : Str → Except Str Releases
  /-- `semver.Make`. -/
  semverMake : Str → Except Str Version
  /-- Whether the file system accepts a write to the path; `none` or the
  error it reports. -/
  writeError : Str → Option Str

/-- The effects a run can be observed by. -/
inductive Event where
  | readFile (path : Str)
  | writeFile (path : Str) (data : Str)
  | httpGet (url : Str) (userAgent : Str)
  | glogInfo (msg : Str)
  | glogWarning (err : Str)
  | glogError (msg : Str)
  /-- The advisory `out.ErrT(out.Celebrate, ...)` with its version and URL. -/
  | advisory (version : Version) (url : Str)
  /-- The tip `out.ErrT(out.Tip, ...)` on how to disable the notice. -/
  | tip
deriving DecidableEq, Repr

/-- The mutable state a run works on: the files by path (`none`: the file is
absent or unreadable), how many times the clock has been read, and the
effects so far, oldest first. -/
structure World where
  files : Str → Option Str
  tick : Nat
  trace : List Event

def World.emit (w : World) (e : Event) : World :=
  { w with trace := w.trace ++ [e] }

/-- Source `timeLayout = time.RFC1123`. -/
def timeLayout : List Chunk := RFC1123

/-- Go `time.Now()`. -/
def Now (env : Env) (w : World) : Time × World :=
  (env.clock w.tick, { w with tick := w.tick + 1 })

/-- Go `time.Since(t)`, which is `time.Now().Sub(t)` for a time without a
monotonic clock reading, as parsed times and the zero time are. -/
def Since (env : Env) (t : Time) (w : World) : Int × World :=
  let r := Now env w
  (r.1.Sub t, r.2)

/-- Go `Time.UTC`: the same instant; times here are UTC instants. -/
def UTC (t : Time) : Time := t

/-- Go `errors.Wrap(err, message)`. -/
def Wrap (err message : Str) : Str := message ++ [':', ' '] ++ err

/-- Go `ioutil.ReadFile`: the contents, or `none` for the error. -/
def ReadFile (path : Str) (w : World) : Option Str × World :=
  (w.files path, w.emit (.readFile path))

/-- Modelled from the spec: `lock.WriteFile` of `pkg/util/lock`, which is not
among the sources: it "writes it to `path`, replacing any prior content", and
"failures (disk full, permission denied) are reported"; a failed write is
taken to leave the file as it was.  The result is the error, `none` for
success. -/
def WriteFile (env : Env) (path data : Str) (w : World) : Option Str × World :=
  let w := w.emit (.writeFile path data)
  match env.writeError path with
  | some err => (some err, w)
  | none => (none, { w with files := fun p => if p = path then some data else w.files p })

/-- Source `getTimeFromFileIfExists`. -/
def getTimeFromFileIfExists (env : Env) (path : Str) (w : World) : Time × World :=
  let r := ReadFile path w
  match r.1 with
  | none => (Time.zero, r.2)
  | some lastUpdateCheckTime =>
    match Parse env.zones timeLayout lastUpdateCheckTime with
    | none => (Time.zero, r.2)
    | some timeInFile => (timeInFile, r.2)

/-- Source `writeTimeToFile`; the result is the error, `none` for nil. -/
def writeTimeToFile (env : Env) (path : Str) (inputTime : Time) (w : World) :
    Option Str × World :=
  let r := WriteFile env path (inputTime.Format timeLayout) w
  match r.1 with
  | some err => (some (Wrap err "Error writing current update time to file: ".toList), r.2)
  | none => (none, r.2)

/-- Source `shouldCheckURLVersion`. -/
def shouldCheckURLVersion (env : Env) (filePath : Str) (w : World) : Bool × World :=
  if !env.WantUpdateNotification then (false, w)
  else
    let r := getTimeFromFileIfExists env filePath w
    let d := Since env r.1 r.2
    (decide (env.ReminderWaitPeriodInHours ≤ Duration.Hours d.1), d.2)

/-- Source `getJSON`: the decoded releases, or the error. -/
def getJSON (env : Env) (url : Str) (w : World) : Except Str Releases × World :=
  match env.httpGet url with
  | .requestError err => (.error (Wrap err "error creating new http request".toList), w)
  | .doError err =>
    let ua := "Minikube/".toList ++ env.GetVersion ++ " Minikube-OS/".toList ++ env.GOOS
    (.error (Wrap err ("error with http GET for endpoint ".toList ++ url)),
      w.emit (.httpGet url ua))
  | .response _ body =>
    let ua := "Minikube/".toList ++ env.GetVersion ++ " Minikube-OS/".toList ++ env.GOOS
    (env.jsonDecode body, w.emit (.httpGet url ua))

/-- Source `GetAllVersionsFromURL`. -/
def GetAllVersionsFromURL (env : Env) (url : Str) (w : World) : Except Str Releases × World :=
  let w := w.emit (.glogInfo "Checking for updates...".toList)
  let r := getJSON env url w
  match r.1 with
  | .error err => (.error (Wrap err "Error getting json from minikube version url".toList), r.2)
  | .ok releases =>
    if releases.length = 0 then
      (.error ("There were no json releases at the url specified: ".toList ++ url), r.2)
    else (.ok releases, r.2)

/-- Source `getLatestVersionFromURL`.  `r[0]` is a checked index: the outer
`none` is the runtime panic "index out of range". -/
def getLatestVersionFromURL (env : Env) (url : Str) (w : World) :
    Option (Except Str Version) × World :=
  let r := GetAllVersionsFromURL env url w
  match r.1 with
  | .error err => (some (.error err), r.2)
  | .ok rs =>
    match rs.get? 0 with
    | none => (none, r.2)
    | some r0 => (some (env.semverMake (strings.TrimPrefix r0.Name env.VersionPrefix)), r.2)

/-- Source `MaybePrintUpdateText`; `none` is a runtime panic. -/
def MaybePrintUpdateText (env : Env) (url lastUpdatePath : Str) (w : World) :
    Option Bool × World :=
  let g := shouldCheckURLVersion env lastUpdatePath w
  if !g.1 then (some false, g.2)
  else
    let l := getLatestVersionFromURL env url g.2
    match l.1 with
    | none => (none, l.2)
    | some (.error err) => (some true, l.2.emit (.glogWarning err))
    | some (.ok latestVersion) =>
      match env.GetSemverVersion with
      | .error err => (some true, l.2.emit (.glogWarning err))
      | .ok localVersion =>
        if localVersion.Compare latestVersion < 0 then
          let n := Now env l.2
          let wr := writeTimeToFile env env.lastUpdateCheckFilePath (UTC n.1) n.2
          let w1 :=
            match wr.1 with
            | some err => wr.2.emit (.glogError ("write time failed: ".toList ++ err))
            | none => wr.2
          let url := "https://github.com/kubernetes/minikube/releases/tag/v".toList
            ++ latestVersion.String
          (some true, (w1.emit (.advisory latestVersion url)).emit .tip)
        else (some false, l.2)

/-- Source `MaybePrintUpdateTextFromGithub`. -/
def MaybePrintUpdateTextFromGithub (env : Env) (w : World) : Option Bool × World :=
  MaybePrintUpdateText env env.GithubMinikubeReleasesURL env.lastUpdateCheckFilePath w

end notify

/-! ## `hack/boilerplate/boilerplate.go` -/

namespace boilerplate

/-- Source `fileExtension`.  The slice index `exts[len(exts)]` is a checked
Go index: `none` is the runtime panic "index out of range". -/
def fileExtension (filename : Str) : Option Str :=
  let ext := (path.Split filename).2
  let exts := strings.Split (path.Base ext) '.'
  exts.get? exts.length

end boilerplate

/-! ## Vocabulary of the statements -/

namespace notify

open time semver

/-- The effects a run added to the trace: those of `after` beyond the ones
`before` already had. -/
def newEvents (before after : World) : List Event :=
  after.trace.drop before.trace.length

/-- The event is an advisory about a newer version. -/
def Event.isAdvisory : Event → Bool
  | .advisory _ _ => true
  | _ => false

/-- The event is a write to a file. -/
def Event.isWrite : Event → Bool
  | .writeFile _ _ => true
  | _ => false

/-- The exact elapsed time `now - last`, in hours, is at least the float64
`wait`: in nanoseconds against `wait * 3600000000000`, both sides scaled by
`2^1074`. -/
def elapsedHoursAtLeast (now last : Time) (wait : Float64) : Prop :=
  wait.scaled * 3600000000000
    ≤ ((now.sec - last.sec) * 1000000000 + (now.nsec - last.nsec)) * Float64.unit

instance (now last : Time) (wait : Float64) : Decidable (elapsedHoursAtLeast now last wait) :=
  Int.decLe _ _

/-- The world `w` with the file at `path` holding `data`. -/
def World.withFile (w : World) (path data : Str) : World :=
  { w with files := fun q => if q = path then some data else w.files q }

/-- The URL the advisory names for a version. -/
def releaseURL (v : Version) : Str :=
  "https://github.com/kubernetes/minikube/releases/tag/v".toList ++ v.String

/-- The run finds an update: the gate passes, the fetch and both version
resolutions succeed, and the local version is strictly below the remote
one. -/
def updateFound (env : Env) (url lastUpdatePath : Str) (w : World) : Bool :=
  let g := shouldCheckURLVersion env lastUpdatePath w
  g.1 &&
    match (getLatestVersionFromURL env url g.2).1, env.GetSemverVersion with
    | some (.ok latestVersion), .ok localVersion => decide (localVersion.Compare latestVersion < 0)
    | _, _ => false

end notify

/-! ## Concrete runs -/

namespace Examples

open time semver notify

def noZones : Zones := ⟨fun _ => none, fun _ _ => none⟩

/-- The body `[{"Name":"v1.3.0"}]` of the spec's scenarios. -/
def feedBody : Str := "[\x7b\"Name\":\"v1.3.0\"\x7d]".toList

def v120 : Version := ⟨1, 2, 0, [], []⟩

def v130 : Version := ⟨1, 3, 0, [], []⟩

/-- Notifications on, a wait period of 24 hours, local version 1.2.0, a
feed that answers 200 with `v1.3.0`, and a clock that reads Thursday,
31 October 2024 19:33:20 UTC plus one second per reading. -/
def env : Env where
  WantUpdateNotification := true
  ReminderWaitPeriodInHours := Float64.ofInt 24
  lastUpdateCheckFilePath := "/home/user/.minikube/last_update_check".toList
  GithubMinikubeReleasesURL := "https://releases.example/releases.json".toList
  VersionPrefix := ['v']
  GetVersion := "v1.2.0".toList
  GetSemverVersion := .ok v120
  GOOS := "linux".toList
  clock := fun n => ⟨63866000000 + n, 0⟩
  zones := noZones
  httpGet := fun _ => .response 200 feedBody
  jsonDecode := fun body =>
    if body = feedBody then .ok [⟨"v1.3.0".toList, []⟩] else .error "invalid character".toList
  semverMake := fun s =>
    if s = "1.3.0".toList then .ok v130 else .error "No Major.Minor.Patch elements found".toList
  writeError := fun _ => none

/-- The same with update notifications switched off. -/
def envDisabled : Env := { env with WantUpdateNotification := false }

/-- The same with a feed that answers HTTP 500 with the release list as its
body. -/
def envStatus500 : Env := { env with httpGet := fun _ => .response 500 feedBody }

/-- The same with a feed that answers HTTP 500 with an error page. -/
def envErrorPage : Env :=
  { env with httpGet := fun _ => .response 500 "Internal Server Error".toList }

/-- The same with a file system that refuses every write. -/
def envWriteFails : Env := { env with writeError := fun _ => some "permission denied".toList }

/-- A state-file path other than the default one, as a test passes. -/
def tmpPath : Str := "/tmp/last_update_check".toList

/-- No files, the clock unread, no effects yet. -/
def emptyWorld : World := ⟨fun _ => none, 0, []⟩

/-- Saturday, 1 January 10000, 00:00:00 UTC. -/
def year10000 : Time := ⟨315537897600, 0⟩

/-- The same with a wait period of 3,000,000 hours, about 342 years. -/
def envWait342Years : Env := { env with ReminderWaitPeriodInHours := Float64.ofInt 3000000 }

/-- The same with a wait period of 2,700,000 hours, about 308 years. -/
def envWait308Years : Env := { env with ReminderWaitPeriodInHours := Float64.ofInt 2700000 }

/-- A state file at `tmpPath` written on 1 January 1700, about 324.8 years
(2,847,000 hours) before the clock's reading. -/
def worldYear1700 : World :=
  emptyWorld.withFile tmpPath "Fri, 01 Jan 1700 00:00:00 UTC".toList

/-- A wait period of 8192 hours and a clock that reads 8192 hours less one
nanosecond after Thursday, 31 October 2024 19:33:20 UTC. -/
def envOneNanosecondShort : Env :=
  { env with
    ReminderWaitPeriodInHours := Float64.ofInt 8192
    clock := fun _ => ⟨63866000000 + 8192 * 3600 - 1, 999999999⟩ }

/-- A state file at `tmpPath` written at Thursday, 31 October 2024 19:33:20
UTC. -/
def worldOct31 : World :=
  emptyWorld.withFile tmpPath "Thu, 31 Oct 2024 19:33:20 UTC".toList

/-- A state file at `tmpPath` written exactly 24 hours before the first
reading of the clock of `env`. -/
def worldOct30 : World :=
  emptyWorld.withFile tmpPath "Wed, 30 Oct 2024 19:33:20 UTC".toList

end Examples

/-! ## Theorems -/

namespace boilerplate

/-- C10 (code bug): for every filename the index `exts[len(exts)]` of
`fileExtension` is out of range, so the function panics instead of returning
the last dot-separated segment of the base name. -/
theorem fileExtension_index_out_of_range (filename : Str) :
    fileExtension filename = none := by
  simp [fileExtension]

end boilerplate

namespace time

/-! ### The calendar: `Date` inverts `absDate` -/

theorem daysSinceEpoch_cycles (n1 n2 n3 n4 : Nat) (h2 : n2 ≤ 3) (h3 : n3 ≤ 24) (h4 : n4 ≤ 3) :
    daysSinceEpoch (((400 * n1 + 100 * n2 + 4 * n3 + n4 : Nat) : Int) + absoluteZeroYear)
      = 146097 * n1 + 36524 * n2 + 1461 * n3 + 365 * n4 := by
  have hy : ((((400 * n1 + 100 * n2 + 4 * n3 + n4 : Nat) : Int) + absoluteZeroYear)
      - absoluteZeroYear).toNat = 400 * n1 + 100 * n2 + 4 * n3 + n4 := by
    unfold absoluteZeroYear; omega
  simp only [daysSinceEpoch, hy]
  have e1 : (400 * n1 + 100 * n2 + 4 * n3 + n4) / 400 = n1 := by omega
  rw [e1]
  have e2 : 400 * n1 + 100 * n2 + 4 * n3 + n4 - 400 * n1 = 100 * n2 + 4 * n3 + n4 := by omega
  rw [e2]
  have e3 : (100 * n2 + 4 * n3 + n4) / 100 = n2 := by omega
  rw [e3]
  have e4 : 100 * n2 + 4 * n3 + n4 - 100 * n2 = 4 * n3 + n4 := by omega
  rw [e4]
  have e5 : (4 * n3 + n4) / 4 = n3 := by omega
  rw [e5]
  omega

theorem absYearDay_cycles (a : Nat) :
    ∃ n1 n2 n3 n4 d : Nat, n2 ≤ 3 ∧ n3 ≤ 24 ∧ n4 ≤ 3 ∧
      absYearDay a = (((400 * n1 + 100 * n2 + 4 * n3 + n4 : Nat) : Int) + absoluteZeroYear, d) ∧
      146097 * n1 + 36524 * n2 + 1461 * n3 + 365 * n4 + d = a / 86400 ∧
      d ≤ 365 ∧ (d = 365 → n4 = 3 ∧ (n3 = 24 → n2 = 3)) := by
  simp only [absYearDay, secondsPerDay]
  generalize a / 86400 = D
  generalize hn1 : D / 146097 = n1
  generalize hd1 : D - 146097 * n1 = d1
  have b1 : d1 < 146097 ∧ 146097 * n1 + d1 = D := by omega
  generalize hn2 : d1 / 36524 = m2
  generalize hn2' : m2 - m2 / 4 = n2
  have b2 : n2 ≤ 3 ∧ (m2 = 4 → n2 = 3) ∧ (m2 < 4 → n2 = m2) ∧ m2 ≤ 4 := by omega
  generalize hd2 : d1 - 36524 * n2 = d2
  have b3 : d2 ≤ 36524 ∧ 36524 * n2 + d2 = d1 ∧ (d2 = 36524 → n2 = 3) := by omega
  generalize hn3 : d2 / 1461 = n3
  generalize hd3 : d2 - 1461 * n3 = d3
  have b4 : n3 ≤ 24 ∧ d3 ≤ 1460 ∧ 1461 * n3 + d3 = d2 ∧ (n3 = 24 → d3 = 1460 → n2 = 3) := by omega
  generalize hn4 : d3 / 365 = m4
  generalize hn4' : m4 - m4 / 4 = n4
  have b5 : n4 ≤ 3 ∧ (m4 = 4 → n4 = 3) ∧ (m4 < 4 → n4 = m4) ∧ m4 ≤ 4 := by omega
  generalize hd4 : d3 - 365 * n4 = d4
  have b6 : d4 ≤ 365 ∧ 365 * n4 + d4 = d3 ∧ (d4 = 365 → n4 = 3 ∧ d3 = 1460) := by omega
  refine ⟨n1, n2, n3, n4, d4, b2.1, b4.1, b5.1, rfl, by omega, b6.1, ?_⟩
  intro h
  refine ⟨(b6.2.2 h).1, fun h3 => b4.2.2.2 h3 (b6.2.2 h).2⟩

theorem isLeap_cycles (n1 n2 n3 n4 : Nat) (h2 : n2 ≤ 3) (h3 : n3 ≤ 24) (h4 : n4 ≤ 3) :
    isLeap (((400 * n1 + 100 * n2 + 4 * n3 + n4 : Nat) : Int) + absoluteZeroYear) = true ↔
      (n4 = 3 ∧ (n3 = 24 → n2 = 3)) := by
  simp only [isLeap, absoluteZeroYear, Bool.and_eq_true, Bool.or_eq_true, beq_iff_eq, bne_iff_ne,
    ne_eq]
  omega

set_option maxRecDepth 100000 in
theorem monthDay_common : ∀ yday, yday < 365 →
    1 ≤ (monthDay false yday).1 ∧ (monthDay false yday).1 ≤ 12 ∧ 1 ≤ (monthDay false yday).2 ∧
    (monthDay false yday).2 ≤ daysBefore.getD (monthDay false yday).1 0
      - daysBefore.getD ((monthDay false yday).1 - 1) 0 ∧
    daysBefore.getD ((monthDay false yday).1 - 1) 0 + ((monthDay false yday).2 - 1) = yday := by
  decide

set_option maxRecDepth 100000 in
theorem monthDay_leap : ∀ yday, yday < 366 →
    1 ≤ (monthDay true yday).1 ∧ (monthDay true yday).1 ≤ 12 ∧ 1 ≤ (monthDay true yday).2 ∧
    (monthDay true yday).2 ≤ (if (monthDay true yday).1 = 2 then 29
      else daysBefore.getD (monthDay true yday).1 0
        - daysBefore.getD ((monthDay true yday).1 - 1) 0) ∧
    daysBefore.getD ((monthDay true yday).1 - 1) 0
      + (if 3 ≤ (monthDay true yday).1 then 1 else 0) + ((monthDay true yday).2 - 1) = yday := by
  decide

theorem norm_in_range (hi lo base : Int) (h0 : 0 ≤ lo) (h1 : lo < base) : norm hi lo base = (hi, lo) := by
  simp [time.norm, not_lt.2 h0, not_le.2 h1]

/-- `Date` on fields that are in range: no carry happens. -/
theorem Date_in_range (year : Int) (m dd h mi s : Nat) (hm1 : 1 ≤ m) (hm2 : m ≤ 12)
    (hd : 1 ≤ dd) (hh : h < 24) (hmi : mi < 60) (hs : s < 60) :
    Date year m dd h mi s 0 =
      ⟨wrapInt64 ((((daysSinceEpoch year + daysBefore.getD (m - 1) 0
        + (if isLeap year && decide (3 ≤ m) then 1 else 0) + (dd - 1) : Nat) : Int) * 86400
        + ((h * 3600 + mi * 60 + s : Nat) : Int)) + absoluteToInternal), 0⟩ := by
  have e1 : time.norm year ((m : Int) - 1) 12 = (year, (m : Int) - 1) :=
    norm_in_range _ _ _ (by omega) (by omega)
  have e2 : time.norm (s : Int) 0 1000000000 = ((s : Int), 0) := norm_in_range _ _ _ (by omega) (by omega)
  have e3 : time.norm (mi : Int) (s : Int) 60 = ((mi : Int), (s : Int)) :=
    norm_in_range _ _ _ (by omega) (by omega)
  have e4 : time.norm (h : Int) (mi : Int) 60 = ((h : Int), (mi : Int)) :=
    norm_in_range _ _ _ (by omega) (by omega)
  have e5 : time.norm (dd : Int) (h : Int) 24 = ((dd : Int), (h : Int)) :=
    norm_in_range _ _ _ (by omega) (by omega)
  have e6 : ((m : Int) - 1 + 1 - 1).toNat = m - 1 := by omega
  have e7 : ((m : Int) - 1 + 1 ≥ 3) ↔ 3 ≤ m := by omega
  simp only [Date, e1, e2, e3, e4, e5, e6, secondsPerDay]
  congr 2
  by_cases hl : isLeap year = true <;> by_cases h3 : 3 ≤ m
  · have : ((m : Int) - 1 + 1 ≥ 3) := e7.2 h3
    simp [hl, h3, this]; omega
  · have : ¬ ((m : Int) - 1 + 1 ≥ 3) := fun hc => h3 (e7.1 hc)
    simp [hl, h3, this]; omega
  · have : ((m : Int) - 1 + 1 ≥ 3) := e7.2 h3
    simp [hl, h3, this]; omega
  · have : ¬ ((m : Int) - 1 + 1 ≥ 3) := fun hc => h3 (e7.1 hc)
    simp [hl, h3, this]; omega

/-- The calendar fields of a time in the years 0 to 9999 are in range and
`Date` maps them back to the second they came from. -/
theorem civil_Date (t : Time) (h0 : -31622400 ≤ t.sec) (h1 : t.sec < 315537897600) :
    0 ≤ (civil t.abs).year ∧ (civil t.abs).year ≤ 9999 ∧
    1 ≤ (civil t.abs).month ∧ (civil t.abs).month ≤ 12 ∧
    1 ≤ (civil t.abs).day ∧ (civil t.abs).day ≤ daysIn (civil t.abs).month (civil t.abs).year ∧
    (civil t.abs).weekday < 7 ∧ (civil t.abs).hour < 24 ∧ (civil t.abs).min < 60 ∧
    (civil t.abs).sec < 60 ∧
    Date (civil t.abs).year (civil t.abs).month (civil t.abs).day (civil t.abs).hour
      (civil t.abs).min (civil t.abs).sec 0 = ⟨t.sec, 0⟩ := by
  have habs : (t.abs : Int) = t.sec + 9223371966579724800 := by
    unfold Time.abs absoluteToInternal; omega
  obtain ⟨n1, n2, n3, n4, d, b2, b3, b4, hyd, hsum, hd, hd365⟩ := absYearDay_cycles t.abs
  have hleap := isLeap_cycles n1 n2 n3 n4 b2 b3 b4
  have hdse := daysSinceEpoch_cycles n1 n2 n3 n4 b2 b3 b4
  generalize hy : (((400 * n1 + 100 * n2 + 4 * n3 + n4 : Nat) : Int) + absoluteZeroYear) = year
    at hyd hleap hdse
  have hyear : 0 ≤ year ∧ year ≤ 9999 := by
    unfold absoluteZeroYear at hy
    interval_cases n2 <;> interval_cases n4 <;> omega
  have hciv : civil t.abs =
      { year := year, month := (monthDay (isLeap year) d).1, day := (monthDay (isLeap year) d).2,
        weekday := ((t.abs + 1 * 86400) % 18446744073709551616 % 604800) / 86400,
        hour := t.abs % 86400 / 3600, min := t.abs % 86400 % 3600 / 60,
        sec := t.abs % 86400 % 60 } := by
    simp [civil, hyd, secondsPerDay]
  rw [hciv]
  simp only []
  have hmd : 1 ≤ (monthDay (isLeap year) d).1 ∧ (monthDay (isLeap year) d).1 ≤ 12 ∧
      1 ≤ (monthDay (isLeap year) d).2 ∧
      (monthDay (isLeap year) d).2 ≤ daysIn (monthDay (isLeap year) d).1 year ∧
      daysBefore.getD ((monthDay (isLeap year) d).1 - 1) 0
        + (if isLeap year && decide (3 ≤ (monthDay (isLeap year) d).1) then 1 else 0)
        + ((monthDay (isLeap year) d).2 - 1) = d := by
    cases hl : isLeap year with
    | true =>
      have := monthDay_leap d (by omega)
      simp only [daysIn, hl, Bool.and_true, Bool.true_and, beq_iff_eq]
      refine ⟨this.1, this.2.1, this.2.2.1, this.2.2.2.1, ?_⟩
      simpa using this.2.2.2.2
    | false =>
      have hne : d ≠ 365 := fun h => by
        have := hleap.2 (hd365 h)
        rw [hl] at this; cases this
      have := monthDay_common d (by omega)
      simp only [daysIn, hl, Bool.and_false, Bool.false_and]
      refine ⟨this.1, this.2.1, this.2.2.1, by simpa using this.2.2.2.1, ?_⟩
      simpa using this.2.2.2.2
  generalize (monthDay (isLeap year) d).1 = m at hmd
  generalize (monthDay (isLeap year) d).2 = dd at hmd
  refine ⟨hyear.1, hyear.2, hmd.1, hmd.2.1, hmd.2.2.1, hmd.2.2.2.1, by omega, by omega, by omega,
    by omega, ?_⟩
  rw [Date_in_range year m dd _ _ _ hmd.1 hmd.2.1 hmd.2.2.1 (by omega) (by omega) (by omega)]
  congr 1
  have hday : daysSinceEpoch year + daysBefore.getD (m - 1) 0
      + (if isLeap year && decide (3 ≤ m) then 1 else 0) + (dd - 1) = t.abs / 86400 := by
    have := hmd.2.2.2.2
    omega
  rw [hday]
  unfold wrapInt64 absoluteToInternal
  omega

/-! ### `Parse` inverts `Format` -/

theorem digitChar_facts : ∀ a, a < 10 →
    isDigitChar (digitChar a) = true ∧ digitVal (digitChar a) = a ∧ digitChar a ≠ ' ' ∧
      digitChar a ≠ '.' := by
  decide

theorem appendInt_two : ∀ n : Nat, n < 100 →
    appendInt (n : Int) 2 = [digitChar (n / 10), digitChar (n % 10)] := by
  decide

theorem appendInt_four (y : Nat) (h : y < 10000) :
    appendInt (y : Int) 4
      = [digitChar (y / 1000), digitChar (y / 100 % 10), digitChar (y / 10 % 10), digitChar (y % 10)] := by
  have hneg : ¬ ((y : Int) < 0) := by omega
  simp only [appendInt, hneg, if_false, Int.natAbs_ofNat, List.nil_append]
  by_cases h1 : y < 10
  · have e1 : ¬ y ≥ 10 := by omega
    have z1 : y / 1000 = 0 := by omega
    have z2 : y / 100 % 10 = 0 := by omega
    have z3 : y / 10 % 10 = 0 := by omega
    have z4 : y % 10 = y := by omega
    simp [appendDigits, e1, z1, z2, z3, z4, digitChar, List.replicate]
  · by_cases h2 : y < 100
    · have e1 : y ≥ 10 := by omega
      have e2 : ¬ y / 10 ≥ 10 := by omega
      have z1 : y / 1000 = 0 := by omega
      have z2 : y / 100 % 10 = 0 := by omega
      have z3 : y / 10 % 10 = y / 10 := by omega
      simp [appendDigits, e1, e2, z1, z2, z3, digitChar, List.replicate]
    · by_cases h3 : y < 1000
      · have e1 : y ≥ 10 := by omega
        have e2 : y / 10 ≥ 10 := by omega
        have e3 : ¬ y / 10 / 10 ≥ 10 := by omega
        have z1 : y / 1000 = 0 := by omega
        have z2 : y / 100 % 10 = y / 10 / 10 := by omega
        simp [appendDigits, e1, e2, e3, z1, z2, digitChar, List.replicate]
      · have e1 : y ≥ 10 := by omega
        have e2 : y / 10 ≥ 10 := by omega
        have e3 : y / 10 / 10 ≥ 10 := by omega
        have e4 : ¬ y / 10 / 10 / 10 ≥ 10 := by omega
        have z1 : y / 1000 = y / 10 / 10 / 10 := by omega
        have z2 : y / 100 % 10 = y / 10 / 10 % 10 := by omega
        simp [appendDigits, e1, e2, e3, e4, z1, z2, digitChar, List.replicate]

theorem lookup_shortDayNames (i : Nat) (hi : i < 7) (rest : Str) :
    lookup shortDayNames (shortDayNames.getD i [] ++ rest) = some (i, rest) := by
  interval_cases i <;> simp [lookup, shortDayNames, matchFold]

theorem lookup_shortMonthNames (i : Nat) (hi : i < 12) (rest : Str) :
    lookup shortMonthNames (shortMonthNames.getD i [] ++ rest) = some (i, rest) := by
  interval_cases i <;> simp [lookup, shortMonthNames, matchFold]

theorem getnum_two (a b : Nat) (ha : a < 10) (hb : b < 10) (fixed : Bool) (rest : Str) :
    getnum (digitChar a :: digitChar b :: rest) fixed = some (a * 10 + b, rest) := by
  have fa := digitChar_facts a ha
  have fb := digitChar_facts b hb
  simp [getnum, fa.1, fa.2.1, fb.1, fb.2.1]

theorem skip_space (c : Char) (rest : Str) (hc : c ≠ ' ') :
    skip (' ' :: c :: rest) [' '] = some (c :: rest) := by
  have h : (c == ' ') = false := by simpa using hc
  simp [skip, skipFrom, cutspace, List.dropWhile, h]

theorem skip_comma_space (c : Char) (rest : Str) (hc : c ≠ ' ') :
    skip (',' :: ' ' :: c :: rest) [',', ' '] = some (c :: rest) := by
  have h : (c == ' ') = false := by simpa using hc
  simp [skip, skipFrom, cutspace, List.dropWhile, h]

theorem skip_colon (rest : Str) : skip (':' :: rest) [':'] = some rest := by
  simp [skip, skipFrom]

theorem month_name_head (i : Nat) (hi : i < 12) :
    ∃ c cs, shortMonthNames.getD i [] = c :: cs ∧ c ≠ ' ' := by
  interval_cases i <;> simp [shortMonthNames]

theorem digitsValue_four (a b c d : Nat) (ha : a < 10) (hb : b < 10) (hc : c < 10) (hd : d < 10) :
    digitsValue [digitChar a, digitChar b, digitChar c, digitChar d] 0
      = some (a * 1000 + b * 100 + c * 10 + d) := by
  have fa := digitChar_facts a ha
  have fb := digitChar_facts b hb
  have fc := digitChar_facts c hc
  have fd := digitChar_facts d hd
  simp [digitsValue, fa.1, fa.2.1, fb.1, fb.2.1, fc.1, fc.2.1, fd.1, fd.2.1]
  ring

/-- Parsing what `Format` printed gives the printed fields back. -/
theorem parseChunks_formatChunk (zones : Zones) (c : Civil)
    (hy0 : 0 ≤ c.year) (hy : c.year ≤ 9999) (hm1 : 1 ≤ c.month) (hm : c.month ≤ 12)
    (hd : c.day < 100) (hw : c.weekday < 7) (hh : c.hour < 24) (hmi : c.min < 60)
    (hs : c.sec < 60) :
    parseChunks zones RFC1123 {} ((RFC1123.map (formatChunk c)).flatten)
      = some { year := c.year, month := c.month, day := c.day, hour := c.hour, min := c.min,
               sec := c.sec, nsec := 0, utc := true, zoneName := [] } := by
  obtain ⟨year, month, day, weekday, hour, min, sec⟩ := c
  simp only at hy0 hy hm1 hm hd hw hh hmi hs
  obtain ⟨y, rfl⟩ : ∃ y : Nat, year = (y : Int) := ⟨year.toNat, by omega⟩
  have hy' : y < 10000 := by omega
  obtain ⟨mc, mcs, hmn, hmc⟩ := month_name_head (month - 1) (by omega)
  have fD := digitChar_facts (day / 10) (by omega)
  have fY := digitChar_facts (y / 1000) (by omega)
  have fH := digitChar_facts (hour / 10) (by omega)
  have hfmt : (RFC1123.map (formatChunk ⟨(y : Int), month, day, weekday, hour, min, sec⟩)).flatten
      = shortDayNames.getD weekday [] ++ (',' :: ' ' :: digitChar (day / 10) :: digitChar (day % 10)
        :: ' ' :: (shortMonthNames.getD (month - 1) [] ++ (' ' :: digitChar (y / 1000)
        :: digitChar (y / 100 % 10) :: digitChar (y / 10 % 10) :: digitChar (y % 10) :: ' '
        :: digitChar (hour / 10) :: digitChar (hour % 10) :: ':' :: digitChar (min / 10)
        :: digitChar (min % 10) :: ':' :: digitChar (sec / 10) :: digitChar (sec % 10) :: ' '
        :: ['U', 'T', 'C']))) := by
    simp [RFC1123, formatChunk, appendInt_two day hd, appendInt_two hour (by omega),
      appendInt_two min (by omega), appendInt_two sec (by omega), appendInt_four y hy']
  rw [hfmt, hmn]
  have l1 := lookup_shortDayNames weekday hw
  have l2 : ∀ rest : Str, lookup shortMonthNames (mc :: (mcs ++ rest)) = some (month - 1, rest) := by
    intro rest
    have := lookup_shortMonthNames (month - 1) (by omega) rest
    rwa [hmn] at this
  have dv := digitsValue_four (y / 1000) (y / 100 % 10) (y / 10 % 10) (y % 10) (by omega) (by omega)
    (by omega) (by omega)
  have g1 := getnum_two (day / 10) (day % 10) (by omega) (by omega)
  have g2 := getnum_two (hour / 10) (hour % 10) (by omega) (by omega)
  have g3 := getnum_two (min / 10) (min % 10) (by omega) (by omega)
  have g4 := getnum_two (sec / 10) (sec % 10) (by omega) (by omega)
  have k1 : day / 10 * 10 + day % 10 = day := by omega
  have k2 : hour / 10 * 10 + hour % 10 = hour := by omega
  have k3 : min / 10 * 10 + min % 10 = min := by omega
  have k4 : sec / 10 * 10 + sec % 10 = sec := by omega
  have k5 : y / 1000 * 1000 + y / 100 % 10 * 100 + y / 10 % 10 * 10 + y % 10 = y := by omega
  have k7 : ((month - 1 : Nat) : Int) + 1 = month := by omega
  simp only [RFC1123, parseChunks, parseChunk, l1, Option.map_some', skip_comma_space _ _ fD.2.2.1,
    g1, List.cons_append, skip_space _ _ hmc, l2, skip_space _ _ fY.2.2.1, List.nil_append]
  simp [fY.1, dv, skip_space _ _ fH.2.2.1, g2, g3, g4, skip_colon, k1, k2, k3, k4, k5, k7,
    hh, hmi, hs, not_le.2 hh, not_le.2 hmi, not_le.2 hs,
    skip_space 'U' ['T', 'C'] (by decide)]

theorem daysIn_le (m : Nat) (h1 : 1 ≤ m) (h2 : m ≤ 12) (year : Int) : daysIn m year ≤ 31 := by
  interval_cases m <;> simp [daysIn, daysBefore]
  split <;> omega

/-- A UTC time in the years 0 to 9999, printed in the layout RFC1123 and
parsed again, is the same time at whole seconds. -/
theorem Parse_Format (zones : Zones) (t : Time) (h0 : -31622400 ≤ t.sec)
    (h1 : t.sec < 315537897600) :
    Parse zones RFC1123 (t.Format RFC1123) = some ⟨t.sec, 0⟩ := by
  obtain ⟨c1, c2, c3, c4, c5, c6, c7, c8, c9, c10, hdate⟩ := civil_Date t h0 h1
  have hd31 := daysIn_le _ c3 c4 (civil t.abs).year
  have hp := parseChunks_formatChunk zones (civil t.abs) c1 c2 c3 c4 (by omega) c7 c8 c9 c10
  unfold Parse Time.Format
  rw [hp]
  have hv1 : ¬ (((civil t.abs).day : Int) < 1) := by omega
  have hv2 : ¬ (((civil t.abs).day : Int) > (daysIn (civil t.abs).month (civil t.abs).year : Nat)) := by
    omega
  simp [hv1, hv2, hdate]

/-! ### float64: whole hours are exact -/

theorem bitLength_le (fuel : Nat) : ∀ (n k : Nat), n < 2 ^ k → Float64.bitLength fuel n ≤ k := by
  induction fuel with
  | zero => intro n k _; simp [Float64.bitLength]
  | succ f ih =>
    intro n k h
    unfold Float64.bitLength
    by_cases hn : n = 0
    · simp [hn]
    · simp only [hn, if_false]
      cases k with
      | zero => simp at h; exact absurd h hn
      | succ k =>
        have : n / 2 < 2 ^ k := by
          rw [pow_succ] at h
          omega
        have := ih (n / 2) k this
        omega

/-- An integer below `2^53` is a float64: converting it does not round. -/
theorem roundNat_whole (h : Nat) (hh : h < 2 ^ 53) :
    Float64.roundNat (h * Float64.unit) 1 = h * Float64.unit := by
  unfold Float64.roundNat Float64.unit
  simp only [Nat.div_one, one_mul]
  have hlt : h * 2 ^ 1074 < 2 ^ (53 + 1074) := by
    rw [pow_add]
    exact Nat.mul_lt_mul_of_lt_of_le hh (le_refl _) (by positivity)
  have hb := bitLength_le (h * 2 ^ 1074) (h * 2 ^ 1074) (53 + 1074) hlt
  generalize Float64.bitLength (h * 2 ^ 1074) (h * 2 ^ 1074) = L at hb
  have he : L - 53 ≤ 1074 := by omega
  obtain ⟨j, hj⟩ : ∃ j, 1074 = (L - 53) + j := ⟨1074 - (L - 53), by omega⟩
  generalize L - 53 = e at he hj
  have hsplit : h * 2 ^ 1074 = (h * 2 ^ j) * 2 ^ e := by
    rw [hj, pow_add]; ring
  rw [hsplit]
  have hpos : 0 < 2 ^ e := by positivity
  have hq : h * 2 ^ j * 2 ^ e / 2 ^ e = h * 2 ^ j := Nat.mul_div_cancel _ hpos
  have hr : h * 2 ^ j * 2 ^ e % 2 ^ e = 0 := Nat.mul_mod_left _ _
  simp only [hq, hr]
  have hne : ¬ (0 = 2 ^ e) := by omega
  simp [hne]

theorem Hours_whole (h : Nat) (hh : h < 2 ^ 53) :
    Duration.Hours ((h : Int) * 3600000000000) = Float64.ofInt h := by
  have e1 : Int.tdiv ((h : Int) * 3600000000000) 3600000000000 = h := by
    rw [Int.mul_tdiv_cancel _ (by norm_num)]
  have e2 : Int.tmod ((h : Int) * 3600000000000) 3600000000000 = 0 := by
    simp [Int.mul_tmod_left]
  have z0 : Float64.ofInt 0 = ⟨0⟩ := by
    show Float64.round (0 * (Float64.unit : Int)) 1 = ⟨0⟩
    rw [zero_mul]
    simp [Float64.round, Float64.roundNat, Float64.bitLength]
  have zd : ∀ y : Float64, Float64.div ⟨0⟩ y = ⟨0⟩ := by
    intro y
    simp [Float64.div, Float64.round, Float64.roundNat, Float64.bitLength]
  have hof : Float64.ofInt (h : Int) = ⟨((h * Float64.unit : Nat) : Int)⟩ := by
    have hn : ¬ ((h : Int) * (Float64.unit : Int) < 0) :=
      not_lt.2 (mul_nonneg (Int.ofNat_nonneg _) (Int.ofNat_nonneg _))
    simp only [Float64.ofInt, Float64.round, hn, if_false]
    have : ((h : Int) * (Float64.unit : Int)).natAbs = h * Float64.unit := by
      rw [← Nat.cast_mul, Int.natAbs_ofNat]
    rw [this, roundNat_whole h hh]
  unfold Duration.Hours
  simp only [e1, e2, z0, zd]
  rw [hof]
  have hn : ¬ (((h * Float64.unit : Nat) : Int) + 0 < 0) := by
    have : (0 : Int) ≤ ((h * Float64.unit : Nat) : Int) := Int.ofNat_nonneg _
    omega
  simp only [Float64.add, Float64.round, hn, if_false]
  have : (((h * Float64.unit : Nat) : Int) + 0).natAbs = h * Float64.unit := by
    rw [add_zero, Int.natAbs_ofNat]
  rw [this, roundNat_whole h hh]

/-- Rounding a whole number of units does not go below a whole number of
hours under it. -/
theorem roundNat_ge (a k : Nat) (hk : k * Float64.unit ≤ a) (ha : a < 2 ^ 1127) :
    k * Float64.unit ≤ Float64.roundNat a 1 := by
  unfold Float64.roundNat
  simp only [Nat.div_one, one_mul]
  have hb := bitLength_le a a 1127 ha
  generalize Float64.bitLength a a = L at hb
  have he : L - 53 ≤ 1074 := by omega
  obtain ⟨j, hj⟩ : ∃ j, 1074 = (L - 53) + j := ⟨1074 - (L - 53), by omega⟩
  generalize L - 53 = e at he hj
  have hunit : Float64.unit = 2 ^ j * 2 ^ e := by
    unfold Float64.unit; rw [hj, pow_add]; ring
  have hpos : 0 < 2 ^ e := by positivity
  have hq : k * 2 ^ j ≤ a / 2 ^ e := by
    rw [Nat.le_div_iff_mul_le hpos]
    calc k * 2 ^ j * 2 ^ e = k * Float64.unit := by rw [hunit]; ring
      _ ≤ a := hk
  have hks : k * Float64.unit = k * 2 ^ j * 2 ^ e := by rw [hunit]; ring
  rw [hks]
  split
  · exact Nat.mul_le_mul_right _ (by omega)
  · exact Nat.mul_le_mul_right _ hq

/-- Rounding a quotient below a power of two gives at most that power. -/
theorem roundNat_le_pow (a b k : Nat) (_hb : 0 < b) (h : a / b < 2 ^ k) :
    Float64.roundNat a b ≤ 2 ^ k := by
  unfold Float64.roundNat
  simp only
  have hL := bitLength_le (a / b) (a / b) k h
  generalize Float64.bitLength (a / b) (a / b) = L at hL
  have he : L - 53 ≤ k := by omega
  obtain ⟨j, hj⟩ : ∃ j, k = (L - 53) + j := ⟨k - (L - 53), by omega⟩
  generalize L - 53 = e at he hj
  have hpos : 0 < 2 ^ e := by positivity
  have hk : 2 ^ k = 2 ^ j * 2 ^ e := by rw [hj, pow_add]; ring
  have hq : a / (b * 2 ^ e) < 2 ^ j := by
    rw [← Nat.div_div_eq_div_mul, Nat.div_lt_iff_lt_mul hpos, ← hk]
    exact h
  rw [hk]
  split
  · exact Nat.mul_le_mul_right _ (by omega)
  · exact Nat.mul_le_mul_right _ (by omega)

theorem ofInt_natCast (h : Nat) (hh : h < 2 ^ 53) :
    Float64.ofInt (h : Int) = ⟨((h * Float64.unit : Nat) : Int)⟩ := by
  have hn : ¬ ((h : Int) * (Float64.unit : Int) < 0) :=
    not_lt.2 (mul_nonneg (Int.ofNat_nonneg _) (Int.ofNat_nonneg _))
  simp only [Float64.ofInt, Float64.round, hn, if_false]
  have : ((h : Int) * (Float64.unit : Int)).natAbs = h * Float64.unit := by
    rw [← Nat.cast_mul, Int.natAbs_ofNat]
  rw [this, roundNat_whole h hh]

/-- A duration of at least `h` whole hours has at least `h` float64 hours. -/
theorem Hours_ge_whole (d : Int) (h : Nat) (hd : (h : Int) * 3600000000000 ≤ d)
    (hmax : d ≤ maxDuration) : Float64.ofInt h ≤ Duration.Hours d := by
  unfold maxDuration at hmax
  obtain ⟨D, rfl⟩ : ∃ D : Nat, d = (D : Int) := ⟨d.toNat, by omega⟩
  have e1 : Int.tdiv (D : Int) 3600000000000 = ((D / 3600000000000 : Nat) : Int) := by
    rw [Int.tdiv_eq_ediv (by omega) (by omega)]; norm_cast
  have e2 : Int.tmod (D : Int) 3600000000000 = ((D % 3600000000000 : Nat) : Int) := by
    rw [Int.tmod_eq_emod (by omega) (by omega)]; norm_cast
  have hh : h ≤ D / 3600000000000 := by omega
  have hhour : D / 3600000000000 ≤ 2562047 := by omega
  have hns : D % 3600000000000 < 3600000000000 := Nat.mod_lt _ (by norm_num)
  generalize D / 3600000000000 = hour at e1 hh hhour
  generalize D % 3600000000000 = nsec at e2 hns
  have p53 : (2 : Nat) ^ 53 = 9007199254740992 := by norm_num
  have o1 := ofInt_natCast hour (by omega)
  have o2 := ofInt_natCast nsec (by omega)
  have o3 : Float64.ofInt (60 * 60 * 1000000000) = ⟨((3600000000000 * Float64.unit : Nat) : Int)⟩ := by
    have := ofInt_natCast 3600000000000 (by omega)
    simpa using this
  have o4 := ofInt_natCast h (by omega)
  unfold Duration.Hours
  simp only [e1, e2, o1, o2, o3]
  have hupos : 0 < Float64.unit := by unfold Float64.unit; positivity
  -- the fraction is at most one hour
  have hdiv : ∃ f : Nat, f ≤ Float64.unit ∧
      Float64.div ⟨((nsec * Float64.unit : Nat) : Int)⟩ ⟨((3600000000000 * Float64.unit : Nat) : Int)⟩
        = ⟨(f : Int)⟩ := by
    refine ⟨Float64.roundNat (nsec * Float64.unit * Float64.unit) (3600000000000 * Float64.unit),
      ?_, ?_⟩
    · have hb : 0 < 3600000000000 * Float64.unit := Nat.mul_pos (by norm_num) hupos
      have key : nsec * Float64.unit * Float64.unit / (3600000000000 * Float64.unit)
          < Float64.unit := by
        rw [Nat.div_lt_iff_lt_mul hb]
        calc nsec * Float64.unit * Float64.unit
            < 3600000000000 * Float64.unit * Float64.unit :=
              Nat.mul_lt_mul_of_pos_right (Nat.mul_lt_mul_of_pos_right hns hupos) hupos
          _ = Float64.unit * (3600000000000 * Float64.unit) := by ring
      exact roundNat_le_pow (nsec * Float64.unit * Float64.unit) (3600000000000 * Float64.unit)
        1074 hb key
    · have hy : ¬ (((3600000000000 * Float64.unit : Nat) : Int) < 0) :=
        not_lt.2 (Int.ofNat_nonneg _)
      have hx : ¬ (((nsec * Float64.unit : Nat) : Int) * (Float64.unit : Int) < 0) :=
        not_lt.2 (mul_nonneg (Int.ofNat_nonneg _) (Int.ofNat_nonneg _))
      simp only [Float64.div, hy, if_false, Float64.round, hx, Int.natAbs_ofNat]
      have : (((nsec * Float64.unit : Nat) : Int) * (Float64.unit : Int)).natAbs
          = nsec * Float64.unit * Float64.unit := by
        rw [← Nat.cast_mul, Int.natAbs_ofNat]
      rw [this]
  obtain ⟨f, hf, hfeq⟩ := hdiv
  rw [hfeq, o4]
  have hsum : ¬ (((hour * Float64.unit : Nat) : Int) + (f : Int) < 0) := by
    have := Int.ofNat_nonneg (hour * Float64.unit)
    have := Int.ofNat_nonneg f
    omega
  simp only [Float64.add, Float64.round, hsum, if_false]
  have hab : (((hour * Float64.unit : Nat) : Int) + (f : Int)).natAbs = hour * Float64.unit + f := by
    rw [← Nat.cast_add, Int.natAbs_ofNat]
  rw [hab]
  show ((h * Float64.unit : Nat) : Int) ≤ ((Float64.roundNat (hour * Float64.unit + f) 1 : Nat) : Int)
  have hlt : hour * Float64.unit + f < 2 ^ 1127 := by
    have h1 : hour * Float64.unit + f ≤ 2562048 * Float64.unit := by
      have : hour * Float64.unit ≤ 2562047 * Float64.unit := Nat.mul_le_mul_right _ hhour
      omega
    have h2 : 2562048 * Float64.unit < 2 ^ 1127 := by
      unfold Float64.unit
      have : (2 : Nat) ^ 1127 = 2 ^ 53 * 2 ^ 1074 := by rw [← pow_add]
      rw [this]
      exact Nat.mul_lt_mul_of_pos_right (by norm_num) (by positivity)
    omega
  have := roundNat_ge (hour * Float64.unit + f) h
    (le_trans (Nat.mul_le_mul_right _ hh) (Nat.le_add_right _ _)) hlt
  exact_mod_cast this

theorem Sub_bounds (now last : Time) (k : Int) (hk : k ≤ maxDuration)
    (h : k ≤ (now.sec - last.sec) * 1000000000 + (now.nsec - last.nsec)) :
    k ≤ now.Sub last ∧ now.Sub last ≤ maxDuration := by
  unfold Time.Sub
  unfold maxDuration at hk
  simp only [minDuration, maxDuration]
  split_ifs <;> omega

theorem Sub_exact (now last : Time)
    (h1 : minDuration ≤ (now.sec - last.sec) * 1000000000 + (now.nsec - last.nsec))
    (h2 : (now.sec - last.sec) * 1000000000 + (now.nsec - last.nsec) ≤ maxDuration) :
    now.Sub last = (now.sec - last.sec) * 1000000000 + (now.nsec - last.nsec) := by
  unfold Time.Sub
  simp [not_lt.2 h1, not_lt.2 h2]

end time

namespace notify

open time semver

/-! ### What each step does to the world -/

theorem getTimeFromFileIfExists_world (env : Env) (path : Str) (w : World) :
    (getTimeFromFileIfExists env path w).2 = w.emit (.readFile path) := by
  unfold getTimeFromFileIfExists ReadFile
  cases w.files path with
  | none => rfl
  | some data =>
    simp only
    cases Parse env.zones timeLayout data <;> rfl

theorem shouldCheckURLVersion_world (env : Env) (filePath : Str) (w : World)
    (h : env.WantUpdateNotification = true) :
    (shouldCheckURLVersion env filePath w).2 =
      { files := w.files, tick := w.tick + 1, trace := w.trace ++ [.readFile filePath] } := by
  simp [shouldCheckURLVersion, h, Since, Now, getTimeFromFileIfExists_world, World.emit]

theorem shouldCheckURLVersion_disabled (env : Env) (filePath : Str) (w : World)
    (h : env.WantUpdateNotification = false) :
    shouldCheckURLVersion env filePath w = (false, w) := by
  simp [shouldCheckURLVersion, h]

/-- The events of one fetch are a log line and, unless the request could not
be built, the GET; the files and the clock are left alone. -/
theorem GetAllVersionsFromURL_world (env : Env) (url : Str) (w : World) :
    ∃ evs : List Event, (∀ e ∈ evs, e.isAdvisory = false ∧ e.isWrite = false) ∧
      (GetAllVersionsFromURL env url w).2 =
        { files := w.files, tick := w.tick, trace := w.trace ++ evs } := by
  unfold GetAllVersionsFromURL getJSON
  cases hg : env.httpGet url with
  | requestError err =>
    exact ⟨[.glogInfo "Checking for updates...".toList], by simp [Event.isAdvisory, Event.isWrite],
      by simp [World.emit]⟩
  | doError err =>
    refine ⟨[.glogInfo "Checking for updates...".toList, .httpGet url
      ("Minikube/".toList ++ env.GetVersion ++ " Minikube-OS/".toList ++ env.GOOS)], ?_, ?_⟩
    · simp [Event.isAdvisory, Event.isWrite]
    · simp [World.emit]
  | response status body =>
    refine ⟨[.glogInfo "Checking for updates...".toList, .httpGet url
      ("Minikube/".toList ++ env.GetVersion ++ " Minikube-OS/".toList ++ env.GOOS)], ?_, ?_⟩
    · simp [Event.isAdvisory, Event.isWrite]
    · simp only [World.emit]
      cases env.jsonDecode body with
      | error e => simp
      | ok rs => by_cases hl : rs.length = 0 <;> simp [hl]

theorem getLatestVersionFromURL_world (env : Env) (url : Str) (w : World) :
    (getLatestVersionFromURL env url w).2 = (GetAllVersionsFromURL env url w).2 := by
  unfold getLatestVersionFromURL
  rcases hr : GetAllVersionsFromURL env url w with ⟨r1, r2⟩
  cases r1 with
  | error e => rfl
  | ok rs => cases rs <;> rfl

theorem writeTimeToFile_world (env : Env) (path : Str) (t : Time) (w : World) :
    (writeTimeToFile env path t w).2 =
      { files := fun q =>
          if env.writeError path = none ∧ q = path then some (t.Format timeLayout) else w.files q,
        tick := w.tick,
        trace := w.trace ++ [.writeFile path (t.Format timeLayout)] } := by
  unfold writeTimeToFile WriteFile
  cases hwe : env.writeError path with
  | none => simp [World.emit]
  | some err => simp [World.emit]

theorem writeTimeToFile_result (env : Env) (path : Str) (t : Time) (w : World) :
    (writeTimeToFile env path t w).1 = none ↔ env.writeError path = none := by
  unfold writeTimeToFile WriteFile
  cases hwe : env.writeError path <;> simp

theorem gate_passes_enabled (env : Env) (filePath : Str) (w : World)
    (h : (shouldCheckURLVersion env filePath w).1 = true) :
    env.WantUpdateNotification = true := by
  cases hw : env.WantUpdateNotification with
  | true => rfl
  | false => simp [shouldCheckURLVersion, hw] at h

/-- The run when the gate is closed. -/
theorem MaybePrintUpdateText_gate_closed (env : Env) (url filePath : Str) (w : World)
    (h : (shouldCheckURLVersion env filePath w).1 = false) :
    MaybePrintUpdateText env url filePath w = (some false, (shouldCheckURLVersion env filePath w).2) := by
  simp [MaybePrintUpdateText, h]

/-- The run when the gate passes and the remote version does not resolve. -/
theorem MaybePrintUpdateText_fetch_error (env : Env) (url filePath : Str) (w : World) (err : Str)
    (hg : (shouldCheckURLVersion env filePath w).1 = true)
    (hl : (getLatestVersionFromURL env url (shouldCheckURLVersion env filePath w).2).1
      = some (.error err)) :
    MaybePrintUpdateText env url filePath w =
      (some true,
        (getLatestVersionFromURL env url (shouldCheckURLVersion env filePath w).2).2.emit
          (.glogWarning err)) := by
  simp [MaybePrintUpdateText, hg, hl]

/-- The run when the gate passes and the local version does not resolve. -/
theorem MaybePrintUpdateText_local_error (env : Env) (url filePath : Str) (w : World)
    (latest : Version) (err : Str)
    (hg : (shouldCheckURLVersion env filePath w).1 = true)
    (hl : (getLatestVersionFromURL env url (shouldCheckURLVersion env filePath w).2).1
      = some (.ok latest))
    (hv : env.GetSemverVersion = .error err) :
    MaybePrintUpdateText env url filePath w =
      (some true,
        (getLatestVersionFromURL env url (shouldCheckURLVersion env filePath w).2).2.emit
          (.glogWarning err)) := by
  simp [MaybePrintUpdateText, hg, hl, hv]

/-- The run when both versions resolve and the local one is not older. -/
theorem MaybePrintUpdateText_not_newer (env : Env) (url filePath : Str) (w : World)
    (latest localVersion : Version)
    (hg : (shouldCheckURLVersion env filePath w).1 = true)
    (hl : (getLatestVersionFromURL env url (shouldCheckURLVersion env filePath w).2).1
      = some (.ok latest))
    (hv : env.GetSemverVersion = .ok localVersion)
    (hc : ¬ localVersion.Compare latest < 0) :
    MaybePrintUpdateText env url filePath w =
      (some false, (getLatestVersionFromURL env url (shouldCheckURLVersion env filePath w).2).2) := by
  simp [MaybePrintUpdateText, hg, hl, hv, hc]

/-- The run when both versions resolve and the remote one is strictly newer:
the result is true and the trace ends with the write attempt, the error log
if the write failed, the advisory and the tip. -/
theorem MaybePrintUpdateText_newer (env : Env) (url filePath : Str) (w : World)
    (latest localVersion : Version)
    (hg : (shouldCheckURLVersion env filePath w).1 = true)
    (hl : (getLatestVersionFromURL env url (shouldCheckURLVersion env filePath w).2).1
      = some (.ok latest))
    (hv : env.GetSemverVersion = .ok localVersion)
    (hc : localVersion.Compare latest < 0) :
    ∃ evs : List Event,
      (MaybePrintUpdateText env url filePath w).1 = some true ∧
      (MaybePrintUpdateText env url filePath w).2.trace =
        w.trace ++ (.readFile filePath :: evs ++ [.advisory latest (releaseURL latest), .tip]) ∧
      (MaybePrintUpdateText env url filePath w).2.files = (fun q =>
        if env.writeError env.lastUpdateCheckFilePath = none ∧ q = env.lastUpdateCheckFilePath then
          some ((env.clock (w.tick + 1)).Format timeLayout)
        else w.files q) := by
  have hwant := gate_passes_enabled env filePath w hg
  have hw1 := shouldCheckURLVersion_world env filePath w hwant
  obtain ⟨evs, -, hw2⟩ := GetAllVersionsFromURL_world env url (shouldCheckURLVersion env filePath w).2
  rw [← getLatestVersionFromURL_world, hw1] at hw2
  rw [hw1] at hl
  cases hwe : env.writeError env.lastUpdateCheckFilePath with
  | none =>
    refine ⟨evs ++ [.writeFile env.lastUpdateCheckFilePath
      ((env.clock (w.tick + 1)).Format timeLayout)], ?_, ?_, ?_⟩
    · simp [MaybePrintUpdateText, hg, hw1, hl, hv, hc]
    · simp [MaybePrintUpdateText, hg, hw1, hl, hv, hc, hw2, Now, UTC, writeTimeToFile, WriteFile,
        World.emit, hwe, releaseURL]
    · simp [MaybePrintUpdateText, hg, hw1, hl, hv, hc, hw2, Now, UTC, writeTimeToFile, WriteFile,
        World.emit, hwe]
  | some err =>
    refine ⟨evs ++ [.writeFile env.lastUpdateCheckFilePath
      ((env.clock (w.tick + 1)).Format timeLayout),
      .glogError ("write time failed: ".toList ++
        Wrap err "Error writing current update time to file: ".toList)], ?_, ?_, ?_⟩
    · simp [MaybePrintUpdateText, hg, hw1, hl, hv, hc]
    · simp [MaybePrintUpdateText, hg, hw1, hl, hv, hc, hw2, Now, UTC, writeTimeToFile, WriteFile,
        World.emit, hwe, releaseURL]
    · simp [MaybePrintUpdateText, hg, hw1, hl, hv, hc, hw2, Now, UTC, writeTimeToFile, WriteFile,
        World.emit, hwe]

theorem newEvents_of_trace (w w2 : World) (evs : List Event)
    (h : w2.trace = w.trace ++ evs) : newEvents w w2 = evs := by
  simp [newEvents, h]

theorem GetAllVersionsFromURL_ok_nonempty (env : Env) (url : Str) (w : World) (releases : Releases)
    (h : (GetAllVersionsFromURL env url w).1 = .ok releases) : releases ≠ [] := by
  unfold GetAllVersionsFromURL at h
  simp only at h
  split at h
  · simp at h
  · rename_i rs hrs
    by_cases hlen : rs.length = 0
    · simp [hlen] at h
    · simp only [hlen, if_false] at h
      cases h
      intro hnil
      exact hlen (by simp [hnil])

theorem getLatestVersionFromURL_no_panic (env : Env) (url : Str) (w : World) :
    (getLatestVersionFromURL env url w).1 ≠ none := by
  unfold getLatestVersionFromURL
  rcases hr : GetAllVersionsFromURL env url w with ⟨r1, r2⟩
  cases r1 with
  | error e => simp
  | ok rs =>
    have hne := GetAllVersionsFromURL_ok_nonempty env url w rs (by rw [hr])
    cases rs with
    | nil => exact absurd rfl hne
    | cons r0 rest => simp

/-- Up to the comparison of the versions a run reads the state file at most
once and fetches; it writes no file and prints no advisory. -/
theorem before_compare_world (env : Env) (url filePath : Str) (w : World) :
    ∃ evs : List Event, (∀ e ∈ evs, e.isAdvisory = false ∧ e.isWrite = false) ∧
      (shouldCheckURLVersion env filePath w).2.files = w.files ∧
      (∃ evs0, (∀ e ∈ evs0, e.isAdvisory = false ∧ e.isWrite = false) ∧
        (shouldCheckURLVersion env filePath w).2.trace = w.trace ++ evs0) ∧
      (getLatestVersionFromURL env url (shouldCheckURLVersion env filePath w).2).2.files = w.files ∧
      (getLatestVersionFromURL env url (shouldCheckURLVersion env filePath w).2).2.trace
        = w.trace ++ evs := by
  obtain ⟨evs, hevs, hw2⟩ := GetAllVersionsFromURL_world env url (shouldCheckURLVersion env filePath w).2
  rw [← getLatestVersionFromURL_world] at hw2
  cases hwant : env.WantUpdateNotification with
  | false =>
    have h0 := shouldCheckURLVersion_disabled env filePath w hwant
    refine ⟨evs, hevs, by rw [h0], ⟨[], by simp, by rw [h0]; simp⟩, ?_, ?_⟩
    · rw [hw2, h0]
    · rw [hw2, h0]
  | true =>
    have h1 := shouldCheckURLVersion_world env filePath w hwant
    refine ⟨.readFile filePath :: evs, ?_, by rw [h1], ⟨[.readFile filePath], ?_, by rw [h1]⟩, ?_, ?_⟩
    · intro e he
      rcases List.mem_cons.1 he with rfl | he
      · simp [Event.isAdvisory, Event.isWrite]
      · exact hevs e he
    · simp [Event.isAdvisory, Event.isWrite]
    · rw [hw2, h1]
    · rw [hw2, h1]; simp

/-! ### The claims about a run -/

/-- C9: with `WantUpdateNotification` false, `shouldCheckURLVersion` returns
false and `MaybePrintUpdateText` returns false, both leaving the world exactly
as it was: the state file is not read, the clock is not read, nothing is
fetched or written and no advisory is printed, whatever the state file, the
time and the wait period are. -/
theorem disabled_run_has_no_effect (env : Env) (url filePath : Str) (w : World)
    (h : env.WantUpdateNotification = false) :
    shouldCheckURLVersion env filePath w = (false, w) ∧
    MaybePrintUpdateText env url filePath w = (some false, w) := by
  have h0 := shouldCheckURLVersion_disabled env filePath w h
  refine ⟨h0, ?_⟩
  rw [MaybePrintUpdateText_gate_closed env url filePath w (by rw [h0]), h0]

/-- C9, witness: the run of `Examples.envDisabled` on the empty world. -/
theorem disabled_run_has_no_effect_witness :
    Examples.envDisabled.WantUpdateNotification = false ∧
    (shouldCheckURLVersion Examples.envDisabled Examples.tmpPath Examples.emptyWorld
        = (false, Examples.emptyWorld) ∧
      MaybePrintUpdateText Examples.envDisabled Examples.env.GithubMinikubeReleasesURL
        Examples.tmpPath Examples.emptyWorld = (some false, Examples.emptyWorld)) :=
  ⟨rfl, disabled_run_has_no_effect Examples.envDisabled _ _ _ rfl⟩

/-- C7: a response body that decodes to an empty array makes
`GetAllVersionsFromURL` return an error; whenever it returns without error the
release list is non-empty, so its first element exists and
`getLatestVersionFromURL` never panics on the index `r[0]`. -/
theorem empty_release_list_is_an_error (env : Env) (url : Str) (w : World) :
    (∀ status body, env.httpGet url = .response status body → env.jsonDecode body = .ok [] →
      ∃ err, (GetAllVersionsFromURL env url w).1 = .error err) ∧
    (∀ releases, (GetAllVersionsFromURL env url w).1 = .ok releases →
      releases ≠ [] ∧ ∃ r0, releases.get? 0 = some r0) ∧
    (getLatestVersionFromURL env url w).1 ≠ none := by
  refine ⟨?_, ?_, getLatestVersionFromURL_no_panic env url w⟩
  · intro status body hresp hdec
    simp [GetAllVersionsFromURL, getJSON, hresp, hdec]
  · intro releases h
    have hne := GetAllVersionsFromURL_ok_nonempty env url w releases h
    refine ⟨hne, ?_⟩
    cases releases with
    | nil => exact absurd rfl hne
    | cons r0 rest => exact ⟨r0, rfl⟩

/-- C8: when the gate passes and both versions resolve, the run returns true
exactly when the local version is strictly below the remote one, and prints
the advisory for the remote version exactly then; the environment, and with
it the success or failure of the state-file write, is arbitrary.  When the
local version is equal or newer the run returns false and prints no
advisory. -/
theorem advisory_iff_local_strictly_older (env : Env) (url filePath : Str) (w : World)
    (latest localVersion : Version)
    (hg : (shouldCheckURLVersion env filePath w).1 = true)
    (hl : (getLatestVersionFromURL env url (shouldCheckURLVersion env filePath w).2).1
      = some (.ok latest))
    (hv : env.GetSemverVersion = .ok localVersion) :
    ((MaybePrintUpdateText env url filePath w).1 = some true ↔ localVersion.Compare latest < 0) ∧
    (Event.advisory latest (releaseURL latest) ∈ newEvents w (MaybePrintUpdateText env url filePath w).2
      ↔ localVersion.Compare latest < 0) ∧
    (¬ localVersion.Compare latest < 0 →
      (MaybePrintUpdateText env url filePath w).1 = some false ∧
      ∀ e ∈ newEvents w (MaybePrintUpdateText env url filePath w).2, e.isAdvisory = false) := by
  by_cases hc : localVersion.Compare latest < 0
  · obtain ⟨evs, hres, htr, -⟩ := MaybePrintUpdateText_newer env url filePath w latest localVersion hg hl hv hc
    rw [newEvents_of_trace w _ _ htr]
    refine ⟨by simp [hres, hc], by simp [hc], fun hn => absurd hc hn⟩
  · have hrun := MaybePrintUpdateText_not_newer env url filePath w latest localVersion hg hl hv hc
    obtain ⟨evs, hevs, -, -, -, htr⟩ := before_compare_world env url filePath w
    have hnew : newEvents w (MaybePrintUpdateText env url filePath w).2 = evs := by
      rw [hrun]; exact newEvents_of_trace w _ _ htr
    have hnone : ∀ e ∈ evs, e.isAdvisory = false := fun e he => (hevs e he).1
    rw [hnew]
    refine ⟨by simp [hrun, hc], ?_, fun _ => ⟨by rw [hrun], hnone⟩⟩
    constructor
    · intro hmem
      have := hnone _ hmem
      simp [Event.isAdvisory] at this
    · intro h; exact absurd h hc

/-- C5: a run attempts a write only when it finds an update (the gate
passed, the fetch and both version resolutions succeeded, the remote version
is strictly newer); in every other run no write is attempted and every file
is as it was. -/
theorem state_file_written_only_on_update (env : Env) (url filePath : Str) (w : World) :
    ((∃ e ∈ newEvents w (MaybePrintUpdateText env url filePath w).2, e.isWrite = true) →
      updateFound env url filePath w = true) ∧
    (updateFound env url filePath w = false →
      (MaybePrintUpdateText env url filePath w).2.files = w.files ∧
      ∀ e ∈ newEvents w (MaybePrintUpdateText env url filePath w).2, e.isWrite = false) := by
  have key : updateFound env url filePath w = true ∨
      ((MaybePrintUpdateText env url filePath w).2.files = w.files ∧
        ∀ e ∈ newEvents w (MaybePrintUpdateText env url filePath w).2, e.isWrite = false) := by
    obtain ⟨evs, hevs, hf0, ⟨evs0, hevs0, ht0⟩, hf, htr⟩ := before_compare_world env url filePath w
    cases hg : (shouldCheckURLVersion env filePath w).1 with
    | false =>
      right
      rw [MaybePrintUpdateText_gate_closed env url filePath w hg]
      refine ⟨hf0, ?_⟩
      rw [newEvents_of_trace w _ _ ht0]
      exact fun e he => (hevs0 e he).2
    | true =>
      cases hl : (getLatestVersionFromURL env url (shouldCheckURLVersion env filePath w).2).1 with
      | none => exact absurd hl (getLatestVersionFromURL_no_panic env url _)
      | some res =>
        cases res with
        | error err =>
          right
          rw [MaybePrintUpdateText_fetch_error env url filePath w err hg hl]
          refine ⟨hf, ?_⟩
          rw [newEvents_of_trace w _ (evs ++ [.glogWarning err]) (by simp [World.emit, htr])]
          intro e he
          rcases List.mem_append.1 he with he | he
          · exact (hevs e he).2
          · simp at he; subst he; rfl
        | ok latest =>
          cases hv : env.GetSemverVersion with
          | error err =>
            right
            rw [MaybePrintUpdateText_local_error env url filePath w latest err hg hl hv]
            refine ⟨hf, ?_⟩
            rw [newEvents_of_trace w _ (evs ++ [.glogWarning err]) (by simp [World.emit, htr])]
            intro e he
            rcases List.mem_append.1 he with he | he
            · exact (hevs e he).2
            · simp at he; subst he; rfl
          | ok localVersion =>
            by_cases hc : localVersion.Compare latest < 0
            · left
              simp [updateFound, hg, hl, hv, hc]
            · right
              rw [MaybePrintUpdateText_not_newer env url filePath w latest localVersion hg hl hv hc]
              refine ⟨hf, ?_⟩
              rw [newEvents_of_trace w _ _ htr]
              exact fun e he => (hevs e he).2
  constructor
  · rintro ⟨e, he, hw⟩
    rcases key with h | ⟨-, h⟩
    · exact h
    · rw [h e he] at hw; cases hw
  · intro hnot
    rcases key with h | h
    · rw [h] at hnot; cases hnot
    · exact h

/-- C8, witness: local 1.2.0, remote 1.3.0 and a file system that refuses
the write: the gate passes, true is returned and the advisory is printed. -/
theorem advisory_iff_local_strictly_older_witness :
    (shouldCheckURLVersion Examples.envWriteFails Examples.tmpPath Examples.emptyWorld).1 = true ∧
    ((MaybePrintUpdateText Examples.envWriteFails [] Examples.tmpPath Examples.emptyWorld).1
        = some true ↔ Examples.v120.Compare Examples.v130 < 0) ∧
    (Event.advisory Examples.v130 (releaseURL Examples.v130) ∈ newEvents Examples.emptyWorld
        (MaybePrintUpdateText Examples.envWriteFails [] Examples.tmpPath Examples.emptyWorld).2
      ↔ Examples.v120.Compare Examples.v130 < 0) ∧
    (¬ Examples.v120.Compare Examples.v130 < 0 →
      (MaybePrintUpdateText Examples.envWriteFails [] Examples.tmpPath Examples.emptyWorld).1
        = some false ∧
      ∀ e ∈ newEvents Examples.emptyWorld
        (MaybePrintUpdateText Examples.envWriteFails [] Examples.tmpPath Examples.emptyWorld).2,
        e.isAdvisory = false) :=
  ⟨by decide!,
    advisory_iff_local_strictly_older Examples.envWriteFails [] Examples.tmpPath
      Examples.emptyWorld Examples.v130 Examples.v120 (by decide!) (by decide!) rfl⟩

/-- C6, counterexample: a feed that answers HTTP 500 with the release list
`v1.3.0` as its body is not an error for `GetAllVersionsFromURL`; the run
prints the advisory and writes the state file. -/
theorem status_500_with_release_body_is_accepted :
    Examples.envStatus500.httpGet [] = .response 500 Examples.feedBody ∧
    (GetAllVersionsFromURL Examples.envStatus500 [] Examples.emptyWorld).1
      = .ok [⟨"v1.3.0".toList, []⟩] ∧
    (MaybePrintUpdateText Examples.envStatus500 [] Examples.tmpPath Examples.emptyWorld).1
      = some true ∧
    Event.advisory Examples.v130 (releaseURL Examples.v130) ∈
      (MaybePrintUpdateText Examples.envStatus500 [] Examples.tmpPath Examples.emptyWorld).2.trace ∧
    (MaybePrintUpdateText Examples.envStatus500 [] Examples.tmpPath Examples.emptyWorld).2.files
      Examples.envStatus500.lastUpdateCheckFilePath
      = some "Thu, 31 Oct 2024 19:33:21 UTC".toList := by
  decide!

/-- C6, amended: the status code of a response is never inspected.  For every
response, whatever its status, `getJSON` returns what the decoder makes of the
body, and `GetAllVersionsFromURL` returns an error exactly when the body fails
to decode or decodes to an empty list; in that case the run prints no
advisory, attempts no write and leaves every file as it was. -/
theorem fetch_fails_iff_body_undecodable (env : Env) (url filePath : Str) (w : World)
    (status : Nat) (body : Str) (hresp : env.httpGet url = .response status body) :
    (∀ w0, (getJSON env url w0).1 = env.jsonDecode body) ∧
    (∀ w0, (∃ err, (GetAllVersionsFromURL env url w0).1 = .error err) ↔
      ((∃ e, env.jsonDecode body = .error e) ∨ env.jsonDecode body = .ok [])) ∧
    (((∃ e, env.jsonDecode body = .error e) ∨ env.jsonDecode body = .ok []) →
      (MaybePrintUpdateText env url filePath w).2.files = w.files ∧
      ∀ e ∈ newEvents w (MaybePrintUpdateText env url filePath w).2,
        e.isAdvisory = false ∧ e.isWrite = false) := by
  have hiff : ∀ w0, (∃ err, (GetAllVersionsFromURL env url w0).1 = .error err) ↔
      ((∃ e, env.jsonDecode body = .error e) ∨ env.jsonDecode body = .ok []) := by
    intro w0
    cases hd : env.jsonDecode body with
    | error e => simp [GetAllVersionsFromURL, getJSON, hresp, hd]
    | ok rs =>
      cases rs with
      | nil => simp [GetAllVersionsFromURL, getJSON, hresp, hd]
      | cons r0 rest => simp [GetAllVersionsFromURL, getJSON, hresp, hd]
  refine ⟨fun w0 => by simp [getJSON, hresp], hiff, ?_⟩
  intro hbad
  obtain ⟨evs, hevs, hf0, ⟨evs0, hevs0, ht0⟩, hf, htr⟩ := before_compare_world env url filePath w
  cases hg : (shouldCheckURLVersion env filePath w).1 with
  | false =>
    rw [MaybePrintUpdateText_gate_closed env url filePath w hg]
    refine ⟨hf0, ?_⟩
    rw [newEvents_of_trace w _ _ ht0]
    exact hevs0
  | true =>
    obtain ⟨err, herr⟩ := (hiff (shouldCheckURLVersion env filePath w).2).2 hbad
    have hl : (getLatestVersionFromURL env url (shouldCheckURLVersion env filePath w).2).1
        = some (.error err) := by
      simp [getLatestVersionFromURL, herr]
    rw [MaybePrintUpdateText_fetch_error env url filePath w err hg hl]
    refine ⟨hf, ?_⟩
    rw [newEvents_of_trace w _ (evs ++ [.glogWarning err]) (by simp [World.emit, htr])]
    intro e he
    rcases List.mem_append.1 he with he | he
    · exact hevs e he
    · simp at he; subst he; exact ⟨rfl, rfl⟩

/-- C6, witness: a feed that answers HTTP 500 with an error page. -/
theorem fetch_fails_iff_body_undecodable_witness :
    Examples.envErrorPage.httpGet [] = .response 500 "Internal Server Error".toList ∧
    (∃ err, (GetAllVersionsFromURL Examples.envErrorPage [] Examples.emptyWorld).1 = .error err) ∧
    (MaybePrintUpdateText Examples.envErrorPage [] Examples.tmpPath Examples.emptyWorld).2.files
      = Examples.emptyWorld.files :=
  have h := fetch_fails_iff_body_undecodable Examples.envErrorPage [] Examples.tmpPath
    Examples.emptyWorld 500 "Internal Server Error".toList rfl
  ⟨rfl, (h.2.1 Examples.emptyWorld).2 (Or.inl ⟨"invalid character".toList, by decide⟩),
    (h.2.2 (Or.inl ⟨"invalid character".toList, by decide⟩)).1⟩

/-- C4 (code bug), the run of the spec's scenario (local 1.2.0, feed v1.3.0)
with the state-file path `/tmp/last_update_check`: the update is found and the
check time is written to `lastUpdateCheckFilePath`, not to the path the gate
read, which stays absent, so the gate at that path opens again at once; at
`lastUpdateCheckFilePath` it is closed. -/
theorem check_time_recorded_at_default_path :
    (MaybePrintUpdateText Examples.env [] Examples.tmpPath Examples.emptyWorld).1 = some true ∧
    (MaybePrintUpdateText Examples.env [] Examples.tmpPath Examples.emptyWorld).2.files
      Examples.tmpPath = none ∧
    (MaybePrintUpdateText Examples.env [] Examples.tmpPath Examples.emptyWorld).2.files
      Examples.env.lastUpdateCheckFilePath = some "Thu, 31 Oct 2024 19:33:21 UTC".toList ∧
    (shouldCheckURLVersion Examples.env Examples.tmpPath
      (MaybePrintUpdateText Examples.env [] Examples.tmpPath Examples.emptyWorld).2).1 = true ∧
    (shouldCheckURLVersion Examples.env Examples.env.lastUpdateCheckFilePath
      (MaybePrintUpdateText Examples.env [] Examples.tmpPath Examples.emptyWorld).2).1 = false := by
  decide!

/-! ### The claims about the state file and the gate -/

theorem getTimeFromFileIfExists_parsed (env : Env) (path : Str) (w : World) (data : Str)
    (last : Time) (hfile : w.files path = some data)
    (hparse : Parse env.zones timeLayout data = some last) :
    (getTimeFromFileIfExists env path w).1 = last := by
  simp [getTimeFromFileIfExists, ReadFile, hfile, hparse]

theorem getTimeFromFileIfExists_zero (env : Env) (path : Str) (w : World)
    (hbad : w.files path = none ∨
      ∃ data, w.files path = some data ∧ Parse env.zones timeLayout data = none) :
    (getTimeFromFileIfExists env path w).1 = Time.zero := by
  rcases hbad with h | ⟨data, h, hp⟩
  · simp [getTimeFromFileIfExists, ReadFile, h]
  · simp [getTimeFromFileIfExists, ReadFile, h, hp]

/-- With notifications on, the gate compares the float64 hours of the
saturated duration since the time read from the file with the wait period. -/
theorem shouldCheckURLVersion_enabled (env : Env) (filePath : Str) (w : World)
    (h : env.WantUpdateNotification = true) :
    ((shouldCheckURLVersion env filePath w).1 = true ↔
      env.ReminderWaitPeriodInHours ≤
        Duration.Hours ((env.clock w.tick).Sub (getTimeFromFileIfExists env filePath w).1)) := by
  simp [shouldCheckURLVersion, h, Since, Now, getTimeFromFileIfExists_world, World.emit]

theorem Parse_empty (zones : Zones) : Parse zones timeLayout [] = none := by
  simp [Parse, timeLayout, RFC1123, parseChunks, parseChunk, lookup, shortDayNames, matchFold]

/-- C3, counterexample: the first instant of the year 10000 is written as
"Sat, 01 Jan 10000 00:00:00 UTC", which the layout's four-digit year does not
parse; the write succeeds and the read gives the zero time. -/
theorem year_10000_does_not_round_trip :
    (writeTimeToFile Examples.env Examples.tmpPath Examples.year10000 Examples.emptyWorld).1 = none ∧
    (writeTimeToFile Examples.env Examples.tmpPath Examples.year10000 Examples.emptyWorld).2.files
      Examples.tmpPath = some "Sat, 01 Jan 10000 00:00:00 UTC".toList ∧
    (getTimeFromFileIfExists Examples.env Examples.tmpPath
      (writeTimeToFile Examples.env Examples.tmpPath Examples.year10000 Examples.emptyWorld).2).1
      = Time.zero ∧
    Time.zero ≠ Examples.year10000.truncSecond := by
  decide

/-- C3, amended: for every UTC instant `t` in the years 0 to 9999 (from
1 January 0, 00:00:00 up to but excluding 1 January 10000), a successful
`writeTimeToFile` of `t` to a path followed by `getTimeFromFileIfExists` of
that path yields `t` truncated to whole seconds. -/
theorem state_file_round_trip (env : Env) (path : Str) (t : Time) (w : World)
    (hw : env.writeError path = none)
    (h0 : -31622400 ≤ t.sec) (h1 : t.sec < 315537897600) :
    (writeTimeToFile env path t w).1 = none ∧
    (writeTimeToFile env path t w).2.files path = some (t.Format timeLayout) ∧
    (getTimeFromFileIfExists env path (writeTimeToFile env path t w).2).1 = t.truncSecond := by
  have hres := (writeTimeToFile_result env path t w).2 hw
  have hfile : (writeTimeToFile env path t w).2.files path = some (t.Format timeLayout) := by
    rw [writeTimeToFile_world]; simp [hw]
  refine ⟨hres, hfile, ?_⟩
  exact getTimeFromFileIfExists_parsed env path _ _ _ hfile (Parse_Format env.zones t h0 h1)

/-- C3, witness: 31 October 2024 19:33:20.123456789 UTC is read back as
19:33:20 of that day. -/
theorem state_file_round_trip_witness :
    Examples.env.writeError Examples.tmpPath = none ∧
    (getTimeFromFileIfExists Examples.env Examples.tmpPath
      (writeTimeToFile Examples.env Examples.tmpPath ⟨63866000000, 123456789⟩
        Examples.emptyWorld).2).1 = ⟨63866000000, 0⟩ :=
  ⟨rfl, (state_file_round_trip Examples.env Examples.tmpPath ⟨63866000000, 123456789⟩
    Examples.emptyWorld rfl (by decide) (by decide)).2.2⟩

/-- C2, counterexample: notifications on, no state file, a clock in 2024 and
a wait period of 3,000,000 hours: the duration since the zero time saturates
at about 2,562,047.79 hours and the gate stays closed. -/
theorem absent_state_file_gate_closed_for_long_wait :
    Examples.envWait342Years.WantUpdateNotification = true ∧
    Examples.emptyWorld.files Examples.tmpPath = none ∧
    (shouldCheckURLVersion Examples.envWait342Years Examples.tmpPath Examples.emptyWorld).1
      = false := by
  decide!

/-- C2, amended: when the state file is absent or unreadable, empty, or does
not parse in the layout RFC1123, `getTimeFromFileIfExists` returns the zero
time and `shouldCheckURLVersion` gives the same result as with a state file
that holds the zero time; with notifications on that result is true exactly
when the wait period is at most the float64 hours of the saturated duration
since the zero time, and so whenever the wait period is at most a whole
number `h` of hours, up to 2,562,047, and the clock reads at least `h` hours
after the zero time. -/
theorem unreadable_state_file_is_zero_time (env : Env) (filePath : Str) (w : World)
    (hbad : w.files filePath = none ∨ w.files filePath = some [] ∨
      ∃ data, w.files filePath = some data ∧ Parse env.zones timeLayout data = none) :
    (getTimeFromFileIfExists env filePath w).1 = Time.zero ∧
    (shouldCheckURLVersion env filePath w).1 =
      (shouldCheckURLVersion env filePath
        (w.withFile filePath (Time.zero.Format timeLayout))).1 ∧
    (env.WantUpdateNotification = true →
      ((shouldCheckURLVersion env filePath w).1 = true ↔
        env.ReminderWaitPeriodInHours ≤ Duration.Hours ((env.clock w.tick).Sub Time.zero))) ∧
    (env.WantUpdateNotification = true → ∀ h : Nat, h ≤ 2562047 →
      (h : Int) * 3600000000000
        ≤ (env.clock w.tick).sec * 1000000000 + (env.clock w.tick).nsec →
      env.ReminderWaitPeriodInHours ≤ Float64.ofInt h →
      (shouldCheckURLVersion env filePath w).1 = true) := by
  have hbad' : w.files filePath = none ∨
      ∃ data, w.files filePath = some data ∧ Parse env.zones timeLayout data = none := by
    rcases hbad with h | h | h
    · exact Or.inl h
    · exact Or.inr ⟨[], h, Parse_empty env.zones⟩
    · exact Or.inr h
  have hz := getTimeFromFileIfExists_zero env filePath w hbad'
  have hz2 : (getTimeFromFileIfExists env filePath
      (w.withFile filePath (Time.zero.Format timeLayout))).1 = Time.zero :=
    getTimeFromFileIfExists_parsed env filePath _ (Time.zero.Format timeLayout) Time.zero
      (by simp [World.withFile])
      (Parse_Format env.zones Time.zero (by decide) (by decide))
  have hiff : env.WantUpdateNotification = true →
      ((shouldCheckURLVersion env filePath w).1 = true ↔
        env.ReminderWaitPeriodInHours ≤ Duration.Hours ((env.clock w.tick).Sub Time.zero)) := by
    intro hwant
    rw [shouldCheckURLVersion_enabled env filePath w hwant, hz]
  refine ⟨hz, ?_, hiff, ?_⟩
  · cases hwant : env.WantUpdateNotification with
    | false =>
      rw [shouldCheckURLVersion_disabled env filePath w hwant,
        shouldCheckURLVersion_disabled env filePath _ hwant]
    | true =>
      have e1 := shouldCheckURLVersion_enabled env filePath w hwant
      have e2 := shouldCheckURLVersion_enabled env filePath
        (w.withFile filePath (Time.zero.Format timeLayout)) hwant
      rw [hz] at e1
      rw [hz2] at e2
      have e3 : (w.withFile filePath (Time.zero.Format timeLayout)).tick = w.tick := rfl
      rw [e3] at e2
      exact Bool.eq_iff_iff.2 (e1.trans e2.symm)
  · intro hwant h hh hel hle
    have hb := Sub_bounds (env.clock w.tick) Time.zero ((h : Int) * 3600000000000)
      (by unfold maxDuration; omega) (by simpa [Time.zero] using hel)
    rw [hiff hwant]
    exact le_trans (α := Int) hle (Hours_ge_whole _ h hb.1 hb.2)

/-- C2, witness: no state file, a wait period of 24 hours and a clock in
2024: the gate opens. -/
theorem unreadable_state_file_is_zero_time_witness :
    Examples.emptyWorld.files Examples.tmpPath = none ∧
    (getTimeFromFileIfExists Examples.env Examples.tmpPath Examples.emptyWorld).1 = Time.zero ∧
    (shouldCheckURLVersion Examples.env Examples.tmpPath Examples.emptyWorld).1 = true :=
  have h := unreadable_state_file_is_zero_time Examples.env Examples.tmpPath Examples.emptyWorld
    (Or.inl rfl)
  ⟨rfl, h.1, h.2.2.2 rfl 24 (by decide) (by decide) (by decide!)⟩

/-- C1, counterexample.  Saturation: with a state file of 1 January 1700, a
clock in 2024 and a wait period of 2,700,000 hours the exact elapsed time
(about 2,847,000 hours) is at least the wait period, yet the gate is closed.
Rounding: with a wait period of 8192 hours and a clock one nanosecond short
of 8192 hours after the state file's time the exact elapsed time is below the
wait period, yet the gate is open. -/
theorem gate_differs_from_exact_elapsed_hours :
    (Parse Examples.noZones timeLayout "Fri, 01 Jan 1700 00:00:00 UTC".toList
        = some ⟨53615260800, 0⟩ ∧
      elapsedHoursAtLeast (Examples.envWait308Years.clock 0) ⟨53615260800, 0⟩
        Examples.envWait308Years.ReminderWaitPeriodInHours ∧
      (shouldCheckURLVersion Examples.envWait308Years Examples.tmpPath Examples.worldYear1700).1
        = false) ∧
    (Parse Examples.noZones timeLayout "Thu, 31 Oct 2024 19:33:20 UTC".toList
        = some ⟨63866000000, 0⟩ ∧
      ¬ elapsedHoursAtLeast (Examples.envOneNanosecondShort.clock 0) ⟨63866000000, 0⟩
        Examples.envOneNanosecondShort.ReminderWaitPeriodInHours ∧
      (shouldCheckURLVersion Examples.envOneNanosecondShort Examples.tmpPath
        Examples.worldOct31).1 = true) := by
  decide!

/-- C1, amended: with notifications on and a state file that parses to `T`,
`shouldCheckURLVersion` returns true exactly when `time.Since(T).Hours()` is
at least the wait period, where the duration `now.Sub(T)` saturates at
`2^63 - 1` nanoseconds (about 292 years) either way and `Hours` is its
float64 value.  For a whole number `h` of hours, up to 2,562,047: an elapsed
time of at least `h` hours is due whenever the wait period is at most `h`, and
an elapsed time of exactly `h` hours is due exactly when the wait period is at
most `h`; so an elapsed time exactly equal to a whole-hour wait period counts
as due. -/
theorem gate_iff_float_hours_ge (env : Env) (filePath : Str) (w : World) (data : Str) (T : Time)
    (hwant : env.WantUpdateNotification = true)
    (hfile : w.files filePath = some data)
    (hparse : Parse env.zones timeLayout data = some T) :
    ((shouldCheckURLVersion env filePath w).1 = true ↔
      env.ReminderWaitPeriodInHours ≤ Duration.Hours ((env.clock w.tick).Sub T)) ∧
    (∀ h : Nat, h ≤ 2562047 →
      (h : Int) * 3600000000000
        ≤ ((env.clock w.tick).sec - T.sec) * 1000000000 + ((env.clock w.tick).nsec - T.nsec) →
      env.ReminderWaitPeriodInHours ≤ Float64.ofInt h →
      (shouldCheckURLVersion env filePath w).1 = true) ∧
    (∀ h : Nat, h ≤ 2562047 →
      ((env.clock w.tick).sec - T.sec) * 1000000000 + ((env.clock w.tick).nsec - T.nsec)
        = (h : Int) * 3600000000000 →
      ((shouldCheckURLVersion env filePath w).1 = true ↔
        env.ReminderWaitPeriodInHours ≤ Float64.ofInt h)) := by
  have hT := getTimeFromFileIfExists_parsed env filePath w data T hfile hparse
  have hiff := shouldCheckURLVersion_enabled env filePath w hwant
  rw [hT] at hiff
  refine ⟨hiff, ?_, ?_⟩
  · intro h hh hel hle
    have hb := Sub_bounds (env.clock w.tick) T ((h : Int) * 3600000000000)
      (by unfold maxDuration; omega) hel
    rw [hiff]
    exact le_trans (α := Int) hle (Hours_ge_whole _ h hb.1 hb.2)
  · intro h hh hel
    have hsub : (env.clock w.tick).Sub T = (h : Int) * 3600000000000 := by
      rw [Sub_exact _ _ (by rw [hel]; unfold minDuration; omega)
        (by rw [hel]; unfold maxDuration; omega), hel]
    rw [hiff, hsub, Hours_whole h (by omega)]

/-- C1, witness: a state file written exactly 24 hours before the clock's
reading, against a wait period of 24 hours. -/
theorem gate_iff_float_hours_ge_witness :
    Examples.worldOct30.files Examples.tmpPath = some "Wed, 30 Oct 2024 19:33:20 UTC".toList ∧
    Parse Examples.env.zones timeLayout "Wed, 30 Oct 2024 19:33:20 UTC".toList
      = some ⟨63865913600, 0⟩ ∧
    ((shouldCheckURLVersion Examples.env Examples.tmpPath Examples.worldOct30).1 = true ↔
      Examples.env.ReminderWaitPeriodInHours ≤ Float64.ofInt (24 : Nat)) :=
  ⟨by decide, by decide,
    (gate_iff_float_hours_ge Examples.env Examples.tmpPath Examples.worldOct30
      "Wed, 30 Oct 2024 19:33:20 UTC".toList ⟨63865913600, 0⟩ rfl (by decide) (by decide)).2.2
      24 (by decide) (by decide)⟩

end notify

end Minikube
